import Mathlib

/-!
Verification of the RequestManager request-identity tracking and
cancellation-coordination engine (class RequestManager).

The embedding models the class as a state machine.  Identities of runtime
objects are represented by natural numbers allocated from counters in the
state:

* entry identity (the requestInfo object stored in activeRequests) is an
  eid allocated from nextEid; JS reference equality of requestInfo objects
  becomes equality of eids;
* AbortController identity is a ctrl number allocated from nextCtrl
  (fresh controllers created by new AbortController) or chosen by the
  caller (user-supplied controllers passed in options);
* underlying promises are uid numbers; the environment settles uid n by a
  deliver step, which runs the then/catch continuations registered for it,
  exactly as the microtask queue does;
* the Date.now() and Math.random().toString(36).slice(2, 11) values used
  by the noCancel branch of the id generator are oracle inputs (now, rand)
  supplied with each request step, since the code gives no guarantee about
  them beyond being strings.

Observable effects (signal aborts, cancel-token invocations, linked abort
handlers firing, and every settlement of a wrapper promise) are recorded in
an append-only trace.  A wrapper promise resolution or rejection is a trace
event naming the eid of the entry whose resolveWrapper or rejectWrapper ran.

Cancellation mechanisms may throw (a user-supplied controller whose abort
throws, a cancel token that throws, an abort handler that throws); the
throwing behaviour is part of the state or the token value, the attempted
invocation is Except-valued, and the try/catch blocks of the source are
explicit catch combinators (jsTry) at exactly the positions where the
source has try/catch.
-/

namespace RequestManagerModel

/-- Association-list lookup: first binding wins, as in a JS Map (whose keys
are unique, an invariant maintained by alSet). -/
def alGet {κ α : Type} [DecidableEq κ] : List (κ × α) → κ → Option α
  | [], _ => none
  | p :: rest, k => if p.1 = k then some p.2 else alGet rest k

/-- Association-list insert-or-replace, mirroring JS Map.set: an existing
key keeps its position and gets the new value, a new key is appended. -/
def alSet {κ α : Type} [DecidableEq κ] : List (κ × α) → κ → α → List (κ × α)
  | [], k, v => [(k, v)]
  | p :: rest, k, v => if p.1 = k then (k, v) :: rest else p :: alSet rest k v

/-- Association-list delete, mirroring JS Map.delete. -/
def alDelete {κ α : Type} [DecidableEq κ] : List (κ × α) → κ → List (κ × α)
  | [], _ => []
  | p :: rest, k => if p.1 = k then alDelete rest k else p :: alDelete rest k

/-- Update the value bound to a key in place (in-place mutation of the
object held by the map, as a JS property write on a shared object does). -/
def alUpdate {κ α : Type} [DecidableEq κ] (f : α → α) : List (κ × α) → κ → List (κ × α)
  | [], _ => []
  | p :: rest, k => if p.1 = k then (p.1, f p.2) :: rest else p :: alUpdate f rest k

/-- Cancel token, per the options.cancelToken duck typing of the source:
either a function, or an object that may or may not expose a cancel
member.  The throws flag records whether invoking it raises. -/
inductive CancelToken : Type
  | fn (throws : Bool)
  | obj (hasCancel : Bool) (throws : Bool)
deriving DecidableEq, Repr

/-- The fields of a requestInfo object stored in activeRequests: the
promise itself is tracked through the registered continuations, and
resolveWrapper, rejectWrapper, wrapperPromise are tracked through the
trace of settlement events, so the record keeps the remaining fields. -/
structure EntryData : Type where
  abortController : Nat
  cancelToken : Option CancelToken
  isCancelled : Bool
  verbose : Bool
deriving DecidableEq, Repr, Inhabited

/-- Observable effects, in program order. -/
inductive Event : Type
  | abortCalled (ctrl : Nat)
  | listenerInvoked (ctrl : Nat)
  | tokenInvoked (eid : Nat)
  | proxyResolved (eid : Nat) (v : Nat)
  | proxyRejectedTransport (eid : Nat) (e : Nat)
  | proxyRejectedCancelled (eid : Nat)
deriving DecidableEq, Repr

/-- A then/catch continuation pair registered by an invocation of
the private request method on a thenable: it closes over the requestId,
the requestInfo object (eid) and reacts to the settlement of uid. -/
structure PCont : Type where
  uid : Nat
  requestId : String
  eid : Nat
deriving DecidableEq, Repr

/-- A setTimeout continuation scheduled for a non-thenable input, closing
over the raw value it will resolve with. -/
structure TCont : Type where
  tid : Nat
  requestId : String
  eid : Nat
  value : Nat
deriving DecidableEq, Repr

/-- A listener registered by addAbortListener on the signal of ctrl; the
throws flag records whether the wrapped abortMethod raises when called. -/
structure Listener : Type where
  ctrl : Nat
  throws : Bool
deriving DecidableEq, Repr

/-- The requestKey option: a literal (string or number, modelled after
String(...) rendering) or a zero-argument producer whose invocation either
yields a literal or fails/returns null (result = none). -/
inductive RequestKey : Type
  | lit (s : String)
  | keyFn (result : Option String)
deriving DecidableEq, Repr

/-- The coordinator-private option keys; the remaining pass-through
transport options have no effect on the core and are not modelled. -/
structure ReqOptions : Type where
  abortController : Option Nat := none
  cancelToken : Option CancelToken := none
  requestKey : Option RequestKey := none
  noCancel : Bool := false
deriving DecidableEq, Repr

/-- The requestPromise argument of the private request method: an already
pending thenable, a function returning a thenable (invoked with the
prepared fetch options, including the abort signal), a URL string (fetch
is issued with the prepared options, producing the thenable uid), or a
non-thenable raw value. -/
inductive ReqInput : Type
  | thenable (uid : Nat)
  | fnInput (uid : Nat)
  | strInput (uid : Nat)
  | rawInput (v : Nat)
deriving DecidableEq, Repr

/-- Settlement of an underlying call. -/
inductive Outcome : Type
  | fulfilled (v : Nat)
  | rejected (e : Nat)
deriving DecidableEq, Repr

/-- The state of one RequestManager instance plus the environment facts
the semantics needs (which controllers are aborted, which abort methods
throw, pending continuations, the effect trace). -/
structure ManagerState : Type where
  activeRequests : List (String × Nat)
  entries : List (Nat × EntryData)
  verbose : Bool
  pendingCtrl : Option Nat
  abortedCtrls : List Nat
  ctrlThrows : List Nat
  listeners : List Listener
  conts : List PCont
  timeouts : List TCont
  nextEid : Nat
  nextCtrl : Nat
  nextTid : Nat
  trace : List Event
deriving DecidableEq, Repr

/-- The state of a freshly constructed manager: verbose is
managerOptions.verbose || false. -/
def initState (verbose : Bool) : ManagerState :=
  { activeRequests := [], entries := [], verbose := verbose, pendingCtrl := none,
    abortedCtrls := [], ctrlThrows := [], listeners := [], conts := [], timeouts := [],
    nextEid := 0, nextCtrl := 0, nextTid := 0, trace := [] }

/-- Reading requestInfo.isCancelled through the shared object store. -/
def entryCancelled (s : ManagerState) (eid : Nat) : Bool :=
  ((alGet s.entries eid).map (fun d => d.isCancelled)).getD false

/-- Reading requestInfo.verbose through the shared object store. -/
def entryVerbose (s : ManagerState) (eid : Nat) : Bool :=
  ((alGet s.entries eid).map (fun d => d.verbose)).getD false

/-- The getAbortController method: reuse the stored controller unless it
is missing or its signal is aborted, in which case a fresh controller is
created and stored. -/
def getAbortControllerRun (s : ManagerState) : ManagerState × Nat :=
  match s.pendingCtrl with
  | some c =>
      if c ∈ s.abortedCtrls then
        ({ s with pendingCtrl := some s.nextCtrl, nextCtrl := s.nextCtrl + 1 }, s.nextCtrl)
      else (s, c)
  | none => ({ s with pendingCtrl := some s.nextCtrl, nextCtrl := s.nextCtrl + 1 }, s.nextCtrl)

/-- The addAbortListener method: no-op without a signal, otherwise the
abortMethod is registered to fire (inside its own try/catch) when the
signal aborts. -/
def addAbortListenerRun (s : ManagerState) (ctrl : Option Nat) (throws : Bool) : ManagerState :=
  match ctrl with
  | none => s
  | some c => { s with listeners := s.listeners ++ [⟨c, throws⟩] }

/-- Firing the abort listeners registered for ctrl: each invocation is
recorded; an exception from the abortMethod is swallowed by the try/catch
inside the listener closure of addAbortListener, so firing never fails. -/
def fireListeners (s : ManagerState) (ctrl : Nat) : ManagerState :=
  { s with trace := s.trace ++ ((s.listeners.filter (fun l => l.ctrl == ctrl)).map
      (fun _ => Event.listenerInvoked ctrl)) }

/-- Invoking ctrl.abort: a hostile controller whose abort throws raises
without observable effect; aborting an already-aborted controller is a
no-op; otherwise the signal is flagged and its abort listeners fire. -/
def abortCtrlE (s : ManagerState) (ctrl : Nat) : Except Unit ManagerState :=
  if ctrl ∈ s.ctrlThrows then Except.error ()
  else if ctrl ∈ s.abortedCtrls then Except.ok s
  else
    Except.ok (fireListeners
      { s with abortedCtrls := ctrl :: s.abortedCtrls,
               trace := s.trace ++ [Event.abortCalled ctrl] } ctrl)

/-- Invoking requestInfo.cancelToken: a function is called; an object is
probed for a cancel member, which is called when present. -/
def invokeTokenE (s : ManagerState) (eid : Nat) : CancelToken → Except Unit ManagerState
  | CancelToken.fn throws =>
      if throws then Except.error ()
      else Except.ok { s with trace := s.trace ++ [Event.tokenInvoked eid] }
  | CancelToken.obj hasCancel throws =>
      if hasCancel then
        if throws then Except.error ()
        else Except.ok { s with trace := s.trace ++ [Event.tokenInvoked eid] }
      else Except.ok s

/-- A try { ... } catch (error) {} block: the raised exception is
discarded and execution continues from the state before the block. -/
def jsTry (x : Except Unit ManagerState) (fallback : ManagerState) : ManagerState :=
  match x with
  | Except.ok s => s
  | Except.error _ => fallback

/-- Marking requestInfo.isCancelled = true on the shared entry object. -/
def markStage (s : ManagerState) (eid : Nat) : ManagerState :=
  { s with entries := alUpdate (fun d => { d with isCancelled := true }) s.entries eid }

/-- The abort attempt of the cancel method: guarded by
requestInfo.abortController.signal.aborted, and wrapped in try/catch. -/
def abortStage (s : ManagerState) (ctrl : Nat) : ManagerState :=
  if ctrl ∈ s.abortedCtrls then s
  else jsTry (abortCtrlE s ctrl) s

/-- The cancel-token attempt of the cancel method, wrapped in try/catch. -/
def tokenStage (s : ManagerState) (eid : Nat) : Option CancelToken → ManagerState
  | none => s
  | some ct => jsTry (invokeTokenE s eid ct) s

/-- The wrapper rejection of the cancel method, gated on this.verbose,
the manager flag read at the time cancel runs. -/
def verboseStage (s : ManagerState) (eid : Nat) : ManagerState :=
  if s.verbose then
    { s with trace := s.trace ++ [Event.proxyRejectedCancelled eid] }
  else s

/-- The body of the cancel method once the entry eid has been found under
requestId: mark it cancelled, attempt the abort controller and the cancel
token, reject the wrapper when this.verbose is set, delete the entry. -/
def cancelCore (s : ManagerState) (requestId : String) (eid : Nat) : ManagerState :=
  let info := (alGet s.entries eid).getD default
  let s3 := tokenStage (abortStage (markStage s eid) info.abortController) eid info.cancelToken
  let s4 := verboseStage s3 eid
  { s4 with activeRequests := alDelete s4.activeRequests requestId }

/-- The cancel method: absent id returns false and changes nothing;
otherwise run the cancellation body and return true. -/
def cancelRun (s : ManagerState) (requestId : String) : ManagerState × Bool :=
  match alGet s.activeRequests requestId with
  | none => (s, false)
  | some eid => (cancelCore s requestId eid, true)

/-- One iteration of the cancelAll loop: cancel the id, bump the count
when it was found. -/
def cancelFold (acc : ManagerState × Nat) (rid : String) : ManagerState × Nat :=
  let r := cancelRun acc.1 rid
  (r.1, if r.2 then acc.2 + 1 else acc.2)

/-- The cancelAll method: snapshot the keys, cancel each, count the
successes. -/
def cancelAllRun (s : ManagerState) : ManagerState × Nat :=
  (s.activeRequests.map Prod.fst).foldl cancelFold (s, 0)

/-- The clear method: empty the table, touching nothing else. -/
def clearRun (s : ManagerState) : ManagerState :=
  { s with activeRequests := [] }

/-- The isActive method. -/
def isActiveRun (s : ManagerState) (requestId : String) : Bool :=
  (alGet s.activeRequests requestId).isSome

/-- The getActiveCount method. -/
def getActiveCount (s : ManagerState) : Nat :=
  s.activeRequests.length

/-- The setOptions method, restricted to the verbose flag it forwards:
this.verbose is updated only when options.verbose is defined. -/
def setOptionsRun (s : ManagerState) (verbose : Option Bool) : ManagerState :=
  match verbose with
  | some b => { s with verbose := b }
  | none => s

/-- Tests whether pat is an initial segment of the second list. -/
def leadsWith : List Char → List Char → Bool
  | [], _ => true
  | _ :: _, [] => false
  | a :: as, b :: bs => a == b && leadsWith as bs

/-- Splits at the first occurrence of the separator pat: returns the
characters before it and the characters after it (the separator itself
dropped), or none when pat does not occur.  This is the primitive behind
the includes tests and the split pieces of the JS string methods: a
string includes pat iff chopAt yields some, piece 0 of split is the
before part, and piece 1 is the before part of a second chop on the
after part (JS split scans non-overlapping occurrences left to right). -/
def chopAt (pat : List Char) : List Char → Option (List Char × List Char)
  | [] => none
  | c :: cs =>
      if leadsWith pat (c :: cs) then some ([], (c :: cs).drop pat.length)
      else
        match chopAt pat cs with
        | none => none
        | some (b, a) => some (c :: b, a)

/-- Piece 1 of a JS split on pat: the segment between the first
occurrence of pat and the following one (or the end). -/
def splitPieceOne (pat : List Char) (l : List Char) : Option (List Char) :=
  match chopAt pat l with
  | none => none
  | some (_, after) =>
      match chopAt pat after with
      | none => some after
      | some (b, _) => some b

/-- URL cleaning of the id generator: strip scheme (split on the scheme
separator, keep piece 1), then query string (split on the question mark,
keep piece 0), then fragment (split on the hash, keep piece 0), each step
applied only when the separator occurs, as the includes-guarded splits of
the source do. -/
def cleanUrl (url : String) : String :=
  let l0 := url.toList
  let l1 :=
    match splitPieceOne [':', '/', '/'] l0 with
    | none => l0
    | some u => u
  let l2 :=
    match chopAt ['?'] l1 with
    | none => l1
    | some ba => ba.1
  let l3 :=
    match chopAt ['#'] l2 with
    | none => l2
    | some ba => ba.1
  String.mk l3

/-- The private id generator.  now and rand are the Date.now() rendering
and the Math.random base-36 slice consumed by the noCancel branch. -/
def generateRequestId (url : String) (requestKey : Option RequestKey) (noCancel : Bool)
    (now rand : String) : String :=
  if noCancel then ("request_") ++ now ++ ("_") ++ rand
  else
    let key : Option String :=
      match requestKey with
      | none => none
      | some (RequestKey.lit s) => some s
      | some (RequestKey.keyFn r) => r
    match key with
    | some k => ("request_") ++ k
    | none => ("request_") ++ cleanUrl url

/-- The result of one request call, as visible to its caller and to the
transport: the derived identity, the eid of the wrapper promise returned,
the controller attached to the request, and the signal merged into the
prepared fetch options (present exactly when a function or URL-string
input made the coordinator prepare fetch options). -/
structure ReqResult : Type where
  requestId : String
  eid : Nat
  usedCtrl : Nat
  preparedSignal : Option Nat
deriving DecidableEq, Repr

/-- The private request method, after the identity has been derived.
this.options is written by setRequestOptions and reset by
flushRequestOptions with no read in between, so it is not part of the
state.  Order follows the source: clear the controller slot when none was
supplied, obtain the controller, resolve the input (invoking a function
input or issuing fetch for a string input with the prepared options),
cancel the previous entry under the identity unless noCancel, build and
register the requestInfo, and register the completion continuation. -/
def reqCore (s : ManagerState) (requestId : String) (input : ReqInput)
    (opts : ReqOptions) : ManagerState × ReqResult :=
  let sA := if opts.abortController.isNone then { s with pendingCtrl := none } else s
  let ctrlStep : ManagerState × Nat :=
    match opts.abortController with
    | some c => (sA, c)
    | none => getAbortControllerRun sA
  let sB := ctrlStep.1
  let ctrl := ctrlStep.2
  let resolved : (Nat ⊕ Nat) × Option Nat :=
    match input with
    | ReqInput.thenable uid => (Sum.inl uid, none)
    | ReqInput.fnInput uid => (Sum.inl uid, some ctrl)
    | ReqInput.strInput uid => (Sum.inl uid, some ctrl)
    | ReqInput.rawInput v => (Sum.inr v, none)
  let sC := if !opts.noCancel then (cancelRun sB requestId).1 else sB
  let eid := sC.nextEid
  let info : EntryData :=
    { abortController := ctrl, cancelToken := opts.cancelToken,
      isCancelled := false, verbose := sC.verbose }
  let sD := { sC with entries := alSet sC.entries eid info,
                      activeRequests := alSet sC.activeRequests requestId eid,
                      nextEid := eid + 1 }
  let sE :=
    match resolved.1 with
    | Sum.inl uid => { sD with conts := sD.conts ++ [⟨uid, requestId, eid⟩] }
    | Sum.inr v =>
        { sD with timeouts := sD.timeouts ++ [⟨sD.nextTid, requestId, eid, v⟩],
                  nextTid := sD.nextTid + 1 }
  (sE, ⟨requestId, eid, ctrl, resolved.2⟩)

/-- The public request method: derive the identity from the url, the
requestKey option and the noCancel option, then run the core. -/
def requestRun (s : ManagerState) (url : String) (input : ReqInput) (opts : ReqOptions)
    (now rand : String) : ManagerState × ReqResult :=
  reqCore s (generateRequestId url opts.requestKey opts.noCancel now rand) input opts

/-- Running the then/catch continuation pair of an entry when its
underlying call settles.  On fulfillment: only when the entry is still the
current occupant for its identity and not cancelled, delete and resolve.
On rejection: return unless still the current occupant; delete; reject
with the transport error unless cancelled; when cancelled, reject with a
cancellation error only if the verbose flag captured in the entry is set. -/
def runPCont (oc : Outcome) (s : ManagerState) (c : PCont) : ManagerState :=
  match oc with
  | Outcome.fulfilled v =>
      match alGet s.activeRequests c.requestId with
      | some cur =>
          if cur = c.eid ∧ entryCancelled s c.eid = false then
            { s with activeRequests := alDelete s.activeRequests c.requestId,
                     trace := s.trace ++ [Event.proxyResolved c.eid v] }
          else s
      | none => s
  | Outcome.rejected e =>
      match alGet s.activeRequests c.requestId with
      | some cur =>
          if cur = c.eid then
            if entryCancelled s c.eid = false then
              { s with activeRequests := alDelete s.activeRequests c.requestId,
                       trace := s.trace ++ [Event.proxyRejectedTransport c.eid e] }
            else if entryVerbose s c.eid then
              { s with activeRequests := alDelete s.activeRequests c.requestId,
                       trace := s.trace ++ [Event.proxyRejectedCancelled c.eid] }
            else
              { s with activeRequests := alDelete s.activeRequests c.requestId }
          else s
      | none => s

/-- Settlement of the underlying promise uid: every continuation
registered for it fires once, in registration order. -/
def deliverRun (s : ManagerState) (uid : Nat) (oc : Outcome) : ManagerState :=
  let fire := s.conts.filter (fun c => c.uid == uid)
  let rest := s.conts.filter (fun c => !(c.uid == uid))
  fire.foldl (runPCont oc) { s with conts := rest }

/-- Running the setTimeout continuation scheduled for a non-thenable
input: guarded by the same still-current-and-not-cancelled check, it
resolves the wrapper with the raw value. -/
def runTCont (s : ManagerState) (t : TCont) : ManagerState :=
  match alGet s.activeRequests t.requestId with
  | some cur =>
      if cur = t.eid ∧ entryCancelled s t.eid = false then
        { s with activeRequests := alDelete s.activeRequests t.requestId,
                 trace := s.trace ++ [Event.proxyResolved t.eid t.value] }
      else s
  | none => s

/-- The scheduler firing the timeout tid. -/
def fireTimeoutRun (s : ManagerState) (tid : Nat) : ManagerState :=
  match s.timeouts.find? (fun t => t.tid == tid) with
  | none => s
  | some t => runTCont { s with timeouts := s.timeouts.filter (fun x => !(x.tid == tid)) } t

/-- One step of the cooperative scheduler: a public API call from the
caller, a settlement of an underlying call, or a timer firing. -/
inductive Cmd : Type
  | req (url : String) (input : ReqInput) (opts : ReqOptions) (now rand : String)
  | cancelC (requestId : String)
  | cancelAllC
  | clearC
  | setOptionsC (verbose : Option Bool)
  | deliverC (uid : Nat) (oc : Outcome)
  | fireTimeoutC (tid : Nat)
  | getSignalC
  | addAbortListenerC (ctrl : Option Nat) (throws : Bool)
deriving DecidableEq, Repr

/-- The step function of the scheduler. -/
def step (s : ManagerState) : Cmd → ManagerState
  | Cmd.req url input opts now rand => (requestRun s url input opts now rand).1
  | Cmd.cancelC rid => (cancelRun s rid).1
  | Cmd.cancelAllC => (cancelAllRun s).1
  | Cmd.clearC => clearRun s
  | Cmd.setOptionsC v => setOptionsRun s v
  | Cmd.deliverC uid oc => deliverRun s uid oc
  | Cmd.fireTimeoutC tid => fireTimeoutRun s tid
  | Cmd.getSignalC => (getAbortControllerRun s).1
  | Cmd.addAbortListenerC ctrl throws => addAbortListenerRun s ctrl throws

/-- Running a command sequence from a state. -/
def runFrom (s : ManagerState) (cmds : List Cmd) : ManagerState :=
  cmds.foldl step s

/-- Running a command sequence from a freshly constructed manager. -/
def runCmds (verbose : Bool) (cmds : List Cmd) : ManagerState :=
  runFrom (initState verbose) cmds

/-- A concrete state with one tracked request, for witnesses. -/
def sampleState : ManagerState :=
  { activeRequests := [(("a"), 0)],
    entries := [(0, { abortController := 0, cancelToken := none,
                      isCancelled := false, verbose := false })],
    verbose := false, pendingCtrl := none, abortedCtrls := [], ctrlThrows := [],
    listeners := [], conts := [], timeouts := [],
    nextEid := 1, nextCtrl := 1, nextTid := 0, trace := [] }

/-- A concrete state with two tracked requests under distinct identities,
for witnesses. -/
def sampleState2 : ManagerState :=
  { activeRequests := [(("a"), 0), (("b"), 1)],
    entries := [(0, { abortController := 0, cancelToken := none,
                      isCancelled := false, verbose := false }),
                (1, { abortController := 1, cancelToken := none,
                      isCancelled := false, verbose := false })],
    verbose := false, pendingCtrl := none, abortedCtrls := [], ctrlThrows := [],
    listeners := [], conts := [], timeouts := [],
    nextEid := 2, nextCtrl := 2, nextTid := 0, trace := [] }

/-- Strips the may-throw flag from a cancel token, leaving its shape. -/
def stripTokenThrows : Option CancelToken → Option CancelToken
  | none => none
  | some (CancelToken.fn _) => some (CancelToken.fn false)
  | some (CancelToken.obj h _) => some (CancelToken.obj h false)

/-- The same state with every cancellation mechanism made non-throwing:
no hostile controller, no throwing cancel token, no throwing linked abort
handler.  Comparing a run against its stripped twin expresses that
mechanism exceptions are swallowed. -/
def clearThrowFlags (s : ManagerState) : ManagerState :=
  { s with ctrlThrows := [],
           entries := s.entries.map
             (fun p => (p.1, { p.2 with cancelToken := stripTokenThrows p.2.cancelToken })),
           listeners := s.listeners.map (fun l => ⟨l.ctrl, false⟩) }

/-- The keys of the request table. -/
def keysOf (m : List (String × Nat)) : List String := m.map Prod.fst

/-- The entry identities currently registered in the request table. -/
def eidsOf (m : List (String × Nat)) : List Nat := m.map Prod.snd

/-- The entry whose wrapper promise an event settles, if any. -/
def settleTarget : Event → Option Nat
  | Event.proxyResolved eid _ => some eid
  | Event.proxyRejectedTransport eid _ => some eid
  | Event.proxyRejectedCancelled eid => some eid
  | _ => none

/-- The number of settlement events for the wrapper of eid in a trace. -/
def settleCount (tr : List Event) (eid : Nat) : Nat :=
  tr.countP (fun e => settleTarget e == some eid)

/-- The number of resolutions of the wrapper of eid in a trace. -/
def resolveCount (tr : List Event) (eid : Nat) : Nat :=
  tr.countP (fun e =>
    match e with
    | Event.proxyResolved i _ => i == eid
    | _ => false)

/-- The number of cancellation rejections of the wrapper of eid. -/
def cancelRejCount (tr : List Event) (eid : Nat) : Nat :=
  tr.countP (fun e => e == Event.proxyRejectedCancelled eid)

/-- After an entry leaves the table its eid never returns: no table slot
holds it, its number is below the allocation counter, and its wrapper has
never been resolved.  Preserved by every step, this is what makes a
superseded proxy permanently unresolvable. -/
def GoneP (eid : Nat) (s : ManagerState) : Prop :=
  (∀ p ∈ s.activeRequests, p.2 ≠ eid) ∧ eid < s.nextEid ∧ resolveCount s.trace eid = 0

/-- The main state invariant: table keys and entry identities are unique,
all registered identities are below the allocation counter, every
settlement event in the trace names an allocated entry, each wrapper is
settled at most once, and a currently registered entry has never been
settled. -/
structure Inv (s : ManagerState) : Prop where
  keysNodup : (keysOf s.activeRequests).Nodup
  eidsNodup : (eidsOf s.activeRequests).Nodup
  eidsLt : ∀ p ∈ s.activeRequests, p.2 < s.nextEid
  traceLt : ∀ e ∈ s.trace, ∀ t, settleTarget e = some t → t < s.nextEid
  atMostOnce : ∀ eid, settleCount s.trace eid ≤ 1
  activeUnsettled : ∀ p ∈ s.activeRequests, settleCount s.trace p.2 = 0

section AssocLemmas

variable {κ α : Type} [DecidableEq κ]

theorem alGet_alSet_self (m : List (κ × α)) (k : κ) (v : α) :
    alGet (alSet m k v) k = some v := by
  induction m with
  | nil => simp [alSet, alGet]
  | cons p rest ih =>
      by_cases h : p.1 = k
      · simp [alSet, h, alGet]
      · simp [alSet, h, alGet, ih]

theorem alGet_alSet_ne (m : List (κ × α)) (k : κ) (v : α) {q : κ} (h : q ≠ k) :
    alGet (alSet m k v) q = alGet m q := by
  induction m with
  | nil => simp [alSet, alGet, Ne.symm h]
  | cons p rest ih =>
      by_cases hp : p.1 = k
      · subst hp
        simp [alSet, alGet, Ne.symm h]
      · simp only [alSet, if_neg hp, alGet]
        by_cases hq : p.1 = q <;> simp [hq, ih]

theorem alGet_alDelete_self (m : List (κ × α)) (k : κ) :
    alGet (alDelete m k) k = none := by
  induction m with
  | nil => simp [alDelete, alGet]
  | cons p rest ih =>
      by_cases h : p.1 = k
      · simp [alDelete, h, ih]
      · simp [alDelete, h, alGet, ih]

theorem alGet_alDelete_ne (m : List (κ × α)) (k : κ) {q : κ} (h : q ≠ k) :
    alGet (alDelete m k) q = alGet m q := by
  induction m with
  | nil => simp [alDelete]
  | cons p rest ih =>
      by_cases hp : p.1 = k
      · subst hp
        simp [alDelete, alGet, Ne.symm h, ih]
      · simp only [alDelete, if_neg hp, alGet]
        by_cases hq : p.1 = q <;> simp [hq, ih]

theorem mem_alDelete {m : List (κ × α)} {k : κ} {p : κ × α} :
    p ∈ alDelete m k ↔ p ∈ m ∧ p.1 ≠ k := by
  induction m with
  | nil => simp [alDelete]
  | cons q rest ih =>
      by_cases h : q.1 = k
      · rw [alDelete, if_pos h, ih]
        constructor
        · rintro ⟨hm, hk⟩
          exact ⟨List.mem_cons_of_mem _ hm, hk⟩
        · rintro ⟨hm, hk⟩
          rcases List.mem_cons.mp hm with rfl | hm
          · exact absurd h hk
          · exact ⟨hm, hk⟩
      · rw [alDelete, if_neg h]
        constructor
        · intro hp
          rcases List.mem_cons.mp hp with rfl | hp
          · exact ⟨List.mem_cons_self _ _, h⟩
          · exact ⟨List.mem_cons_of_mem _ (ih.mp hp).1, (ih.mp hp).2⟩
        · rintro ⟨hm, hk⟩
          rcases List.mem_cons.mp hm with rfl | hm
          · exact List.mem_cons_self _ _
          · exact List.mem_cons_of_mem _ (ih.mpr ⟨hm, hk⟩)

theorem alDelete_sublist (m : List (κ × α)) (k : κ) : (alDelete m k).Sublist m := by
  induction m with
  | nil => simp [alDelete]
  | cons p rest ih =>
      by_cases h : p.1 = k
      · rw [alDelete, if_pos h]
        exact ih.cons _
      · rw [alDelete, if_neg h]
        exact ih.cons₂ _

theorem alGet_alUpdate_self (f : α → α) (m : List (κ × α)) (k : κ) :
    alGet (alUpdate f m k) k = (alGet m k).map f := by
  induction m with
  | nil => simp [alUpdate, alGet]
  | cons p rest ih =>
      by_cases h : p.1 = k
      · simp [alUpdate, h, alGet]
      · simp [alUpdate, h, alGet, ih]

theorem alGet_alUpdate_ne (f : α → α) (m : List (κ × α)) (k : κ) {q : κ} (h : q ≠ k) :
    alGet (alUpdate f m k) q = alGet m q := by
  induction m with
  | nil => simp [alUpdate]
  | cons p rest ih =>
      by_cases hp : p.1 = k
      · subst hp
        simp [alUpdate, alGet, Ne.symm h]
      · simp only [alUpdate, if_neg hp, alGet]
        by_cases hq : p.1 = q <;> simp [hq, ih]

theorem alUpdate_isSome (f : α → α) (m : List (κ × α)) (k q : κ) :
    (alGet (alUpdate f m k) q).isSome = (alGet m q).isSome := by
  by_cases h : q = k
  · subst h
    rw [alGet_alUpdate_self]
    cases alGet m q <;> simp
  · rw [alGet_alUpdate_ne f m k h]

theorem alGet_mem {m : List (κ × α)} {k : κ} {v : α} (h : alGet m k = some v) :
    (k, v) ∈ m := by
  induction m with
  | nil => simp [alGet] at h
  | cons p rest ih =>
      rw [alGet] at h
      by_cases hp : p.1 = k
      · rw [if_pos hp] at h
        have hpkv : p = (k, v) := by
          obtain ⟨p1, p2⟩ := p
          simp only at hp h
          injection h with h2
          simp [hp, h2]
        rw [← hpkv]
        exact List.mem_cons_self _ _
      · rw [if_neg hp] at h
        exact List.mem_cons_of_mem _ (ih h)

theorem alGet_eq_none_iff {m : List (κ × α)} {k : κ} :
    alGet m k = none ↔ ∀ p ∈ m, p.1 ≠ k := by
  induction m with
  | nil => simp [alGet]
  | cons p rest ih =>
      by_cases hp : p.1 = k
      · simp [alGet, hp]
      · simp [alGet, hp, ih]

theorem mem_alSet {m : List (κ × α)} {k : κ} {v : α} {p : κ × α}
    (h : p ∈ alSet m k v) : p ∈ m ∨ p = (k, v) := by
  induction m with
  | nil => simpa [alSet] using h
  | cons q rest ih =>
      by_cases hq : q.1 = k
      · rw [alSet, if_pos hq] at h
        rcases List.mem_cons.mp h with rfl | h
        · right; rfl
        · left; exact List.mem_cons_of_mem _ h
      · rw [alSet, if_neg hq] at h
        rcases List.mem_cons.mp h with rfl | h
        · left; exact List.mem_cons_self _ _
        · rcases ih h with h | h
          · left; exact List.mem_cons_of_mem _ h
          · right; exact h

theorem keys_alSet (m : List (κ × α)) (k : κ) (v : α) :
    (alSet m k v).map Prod.fst =
      if (alGet m k).isSome then m.map Prod.fst else m.map Prod.fst ++ [k] := by
  induction m with
  | nil => simp [alSet, alGet]
  | cons p rest ih =>
      by_cases hp : p.1 = k
      · simp [alSet, hp, alGet]
      · simp only [alSet, if_neg hp, alGet, List.map_cons, ih]
        by_cases hs : (alGet rest k).isSome <;> simp [hs]

theorem keys_alSet_nodup {m : List (κ × α)} (hm : (m.map Prod.fst).Nodup)
    (k : κ) (v : α) : ((alSet m k v).map Prod.fst).Nodup := by
  rw [keys_alSet]
  by_cases hs : (alGet m k).isSome
  · simpa [hs] using hm
  · rw [if_neg hs]
    have hnone : alGet m k = none := by
      cases h : alGet m k
      · rfl
      · rw [h] at hs; simp at hs
    have hk : k ∉ m.map Prod.fst := by
      intro hmem
      rcases List.mem_map.mp hmem with ⟨p, hp, hpk⟩
      exact (alGet_eq_none_iff.mp hnone p hp) hpk
    refine List.Nodup.append hm (List.nodup_singleton k) ?_
    intro a ha hb
    rw [List.mem_singleton] at hb
    subst hb
    exact hk ha

theorem snds_alSet_nodup {m : List (κ × α)} (hm : (m.map Prod.snd).Nodup)
    {k : κ} {v : α} (hv : ∀ p ∈ m, p.2 ≠ v) :
    ((alSet m k v).map Prod.snd).Nodup := by
  induction m with
  | nil => simp [alSet]
  | cons p rest ih =>
      rw [List.map_cons, List.nodup_cons] at hm
      by_cases hp : p.1 = k
      · rw [alSet, if_pos hp]
        refine List.nodup_cons.mpr ⟨?_, hm.2⟩
        intro hmem
        rcases List.mem_map.mp hmem with ⟨q, hq, hqv⟩
        exact hv q (List.mem_cons_of_mem _ hq) hqv
      · rw [alSet, if_neg hp, List.map_cons]
        refine List.nodup_cons.mpr ⟨?_, ih hm.2 (fun q hq => hv q (List.mem_cons_of_mem _ hq))⟩
        intro hmem
        rcases List.mem_map.mp hmem with ⟨q, hq, hqv⟩
        rcases mem_alSet hq with hq | rfl
        · exact hm.1 (hqv ▸ List.mem_map_of_mem Prod.snd hq)
        · exact hv p (List.mem_cons_self _ _) (by simpa using hqv.symm)

end AssocLemmas

theorem settleCount_append (l₁ l₂ : List Event) (eid : Nat) :
    settleCount (l₁ ++ l₂) eid = settleCount l₁ eid + settleCount l₂ eid :=
  List.countP_append _ l₁ l₂

theorem resolveCount_append (l₁ l₂ : List Event) (eid : Nat) :
    resolveCount (l₁ ++ l₂) eid = resolveCount l₁ eid + resolveCount l₂ eid :=
  List.countP_append _ l₁ l₂

theorem cancelRejCount_append (l₁ l₂ : List Event) (eid : Nat) :
    cancelRejCount (l₁ ++ l₂) eid = cancelRejCount l₁ eid + cancelRejCount l₂ eid :=
  List.countP_append _ l₁ l₂

theorem settleCount_of_none {l : List Event} (h : ∀ e ∈ l, settleTarget e = none)
    (eid : Nat) : settleCount l eid = 0 := by
  rw [settleCount, List.countP_eq_zero]
  intro e he
  simp [h e he]

theorem resolveCount_of_none {l : List Event} (h : ∀ e ∈ l, settleTarget e = none)
    (eid : Nat) : resolveCount l eid = 0 := by
  rw [resolveCount, List.countP_eq_zero]
  intro e he
  have := h e he
  cases e <;> simp_all [settleTarget]

theorem cancelRejCount_of_none {l : List Event} (h : ∀ e ∈ l, settleTarget e = none)
    (eid : Nat) : cancelRejCount l eid = 0 := by
  rw [cancelRejCount, List.countP_eq_zero]
  intro e he
  have := h e he
  cases e <;> simp_all [settleTarget]

theorem settleCount_single_eq (eid : Nat) (e : Event) (h : settleTarget e = some eid) :
    settleCount [e] eid = 1 := by
  simp [settleCount, List.countP_cons, h]

theorem settleCount_single_ne {t : Nat} (eid : Nat) (e : Event)
    (h : settleTarget e = some t) (hne : t ≠ eid) : settleCount [e] eid = 0 := by
  simp [settleCount, List.countP_cons, h, hne]

theorem settleCount_eq_zero_of_lt {tr : List Event} {n : Nat}
    (h : ∀ e ∈ tr, ∀ t, settleTarget e = some t → t < n) :
    settleCount tr n = 0 := by
  rw [settleCount, List.countP_eq_zero]
  intro e he
  cases ht : settleTarget e with
  | none => simp [ht]
  | some t =>
      have := h e he t ht
      simp only [ht, beq_iff_eq, Option.some.injEq]
      omega

/-- Relation between a state and a successor that only performed
cancellation side effects: the request table, entry store, verbose flag,
controller slot, continuation queues and counters are unchanged, and the
trace was only extended with non-settlement events.  (Aborted-controller
bookkeeping may change.) -/
structure SideOnly (s t : ManagerState) : Prop where
  activeEq : t.activeRequests = s.activeRequests
  entriesEq : t.entries = s.entries
  verboseEq : t.verbose = s.verbose
  pendingEq : t.pendingCtrl = s.pendingCtrl
  contsEq : t.conts = s.conts
  timeoutsEq : t.timeouts = s.timeouts
  nextEidEq : t.nextEid = s.nextEid
  nextCtrlEq : t.nextCtrl = s.nextCtrl
  nextTidEq : t.nextTid = s.nextTid
  listenersEq : t.listeners = s.listeners
  traceExt : ∃ evs, t.trace = s.trace ++ evs ∧ ∀ e ∈ evs, settleTarget e = none

theorem sideOnly_refl (s : ManagerState) : SideOnly s s :=
  ⟨rfl, rfl, rfl, rfl, rfl, rfl, rfl, rfl, rfl, rfl, ⟨[], by simp, by simp⟩⟩

theorem sideOnly_trans {s t u : ManagerState} (h1 : SideOnly s t) (h2 : SideOnly t u) :
    SideOnly s u := by
  obtain ⟨a1, b1, c1, d1, e1, f1, g1, i1, j1, k1, ⟨ev1, tr1, n1⟩⟩ := h1
  obtain ⟨a2, b2, c2, d2, e2, f2, g2, i2, j2, k2, ⟨ev2, tr2, n2⟩⟩ := h2
  refine ⟨a2.trans a1, b2.trans b1, c2.trans c1, d2.trans d1, e2.trans e1, f2.trans f1,
    g2.trans g1, i2.trans i1, j2.trans j1, k2.trans k1, ⟨ev1 ++ ev2, ?_, ?_⟩⟩
  · rw [tr2, tr1, List.append_assoc]
  · intro e he
    rcases List.mem_append.mp he with h | h
    · exact n1 e h
    · exact n2 e h

theorem abortTry_sideOnly (s : ManagerState) (ctrl : Nat) :
    SideOnly s (jsTry (abortCtrlE s ctrl) s) := by
  by_cases h1 : ctrl ∈ s.ctrlThrows
  · simp only [abortCtrlE, if_pos h1, jsTry]
    exact sideOnly_refl s
  · by_cases h2 : ctrl ∈ s.abortedCtrls
    · simp only [abortCtrlE, if_neg h1, if_pos h2, jsTry]
      exact sideOnly_refl s
    · simp only [abortCtrlE, if_neg h1, if_neg h2, jsTry, fireListeners]
      refine ⟨rfl, rfl, rfl, rfl, rfl, rfl, rfl, rfl, rfl, rfl,
        ⟨Event.abortCalled ctrl ::
          ((s.listeners.filter (fun l => l.ctrl == ctrl)).map (fun _ => Event.listenerInvoked ctrl)),
          ?_, ?_⟩⟩
      · simp
      · intro e he
        rcases List.mem_cons.mp he with rfl | he
        · rfl
        · rcases List.mem_map.mp he with ⟨l, _, rfl⟩
          rfl

theorem abortStage_sideOnly (s : ManagerState) (ctrl : Nat) :
    SideOnly s (abortStage s ctrl) := by
  unfold abortStage
  by_cases h : ctrl ∈ s.abortedCtrls
  · rw [if_pos h]
    exact sideOnly_refl s
  · rw [if_neg h]
    exact abortTry_sideOnly s ctrl

theorem tokenStage_sideOnly (s : ManagerState) (eid : Nat) (oct : Option CancelToken) :
    SideOnly s (tokenStage s eid oct) := by
  match oct with
  | none => exact sideOnly_refl s
  | some (CancelToken.fn false) =>
      exact ⟨rfl, rfl, rfl, rfl, rfl, rfl, rfl, rfl, rfl, rfl,
        ⟨[Event.tokenInvoked eid], rfl, by
          intro e he
          rcases List.mem_singleton.mp he with rfl
          rfl⟩⟩
  | some (CancelToken.fn true) => exact sideOnly_refl s
  | some (CancelToken.obj false t) => exact sideOnly_refl s
  | some (CancelToken.obj true false) =>
      exact ⟨rfl, rfl, rfl, rfl, rfl, rfl, rfl, rfl, rfl, rfl,
        ⟨[Event.tokenInvoked eid], rfl, by
          intro e he
          rcases List.mem_singleton.mp he with rfl
          rfl⟩⟩
  | some (CancelToken.obj true true) => exact sideOnly_refl s

/-- The shape of the state produced by the cancellation body: the entry
under requestId is removed, the entry object eid is marked cancelled, no
other manager field changes, and the trace gains only non-settlement
mechanism events plus, exactly when this.verbose was set, one
cancellation rejection of the wrapper of eid, appended last. -/
structure CancelShape (s : ManagerState) (rid : String) (eid : Nat) : Prop where
  activeEq : (cancelCore s rid eid).activeRequests = alDelete s.activeRequests rid
  entriesEq : (cancelCore s rid eid).entries =
    alUpdate (fun d => { d with isCancelled := true }) s.entries eid
  verboseEq : (cancelCore s rid eid).verbose = s.verbose
  pendingEq : (cancelCore s rid eid).pendingCtrl = s.pendingCtrl
  contsEq : (cancelCore s rid eid).conts = s.conts
  timeoutsEq : (cancelCore s rid eid).timeouts = s.timeouts
  nextEidEq : (cancelCore s rid eid).nextEid = s.nextEid
  nextCtrlEq : (cancelCore s rid eid).nextCtrl = s.nextCtrl
  nextTidEq : (cancelCore s rid eid).nextTid = s.nextTid
  listenersEq : (cancelCore s rid eid).listeners = s.listeners
  traceExt : ∃ evs, (cancelCore s rid eid).trace =
      s.trace ++ evs ++ (if s.verbose = true then [Event.proxyRejectedCancelled eid] else []) ∧
      ∀ e ∈ evs, settleTarget e = none

theorem cancelCore_shape (s : ManagerState) (rid : String) (eid : Nat) :
    CancelShape s rid eid := by
  have hso : SideOnly (markStage s eid)
      (tokenStage (abortStage (markStage s eid)
        ((alGet s.entries eid).getD default).abortController) eid
        ((alGet s.entries eid).getD default).cancelToken) :=
    sideOnly_trans (abortStage_sideOnly _ _) (tokenStage_sideOnly _ _ _)
  obtain ⟨ha, hb, hc, hd, he, hf, hg, hi, hj, hk, ⟨evs, htr, hnone⟩⟩ := hso
  have hcc : cancelCore s rid eid =
      (let s3 := tokenStage (abortStage (markStage s eid)
        ((alGet s.entries eid).getD default).abortController) eid
        ((alGet s.entries eid).getD default).cancelToken
       let s4 := verboseStage s3 eid
       { s4 with activeRequests := alDelete s4.activeRequests rid }) := rfl
  set s3 := tokenStage (abortStage (markStage s eid)
      ((alGet s.entries eid).getD default).abortController) eid
      ((alGet s.entries eid).getD default).cancelToken with hs3
  have hver : s3.verbose = s.verbose := hc
  have hvs_active : (verboseStage s3 eid).activeRequests = s3.activeRequests := by
    unfold verboseStage
    split <;> rfl
  have hvs_entries : (verboseStage s3 eid).entries = s3.entries := by
    unfold verboseStage
    split <;> rfl
  have hvs_verbose : (verboseStage s3 eid).verbose = s3.verbose := by
    unfold verboseStage
    split <;> rfl
  have hvs_pending : (verboseStage s3 eid).pendingCtrl = s3.pendingCtrl := by
    unfold verboseStage
    split <;> rfl
  have hvs_conts : (verboseStage s3 eid).conts = s3.conts := by
    unfold verboseStage
    split <;> rfl
  have hvs_timeouts : (verboseStage s3 eid).timeouts = s3.timeouts := by
    unfold verboseStage
    split <;> rfl
  have hvs_nextEid : (verboseStage s3 eid).nextEid = s3.nextEid := by
    unfold verboseStage
    split <;> rfl
  have hvs_nextCtrl : (verboseStage s3 eid).nextCtrl = s3.nextCtrl := by
    unfold verboseStage
    split <;> rfl
  have hvs_nextTid : (verboseStage s3 eid).nextTid = s3.nextTid := by
    unfold verboseStage
    split <;> rfl
  have hvs_listeners : (verboseStage s3 eid).listeners = s3.listeners := by
    unfold verboseStage
    split <;> rfl
  have hvs_trace : (verboseStage s3 eid).trace =
      s3.trace ++ (if s3.verbose = true then [Event.proxyRejectedCancelled eid] else []) := by
    unfold verboseStage
    by_cases hv : s3.verbose = true
    · rw [if_pos hv, if_pos hv]
    · rw [if_neg hv, if_neg hv, List.append_nil]
  refine ⟨?_, ?_, ?_, ?_, ?_, ?_, ?_, ?_, ?_, ?_, ?_⟩
  · rw [hcc]
    show alDelete (verboseStage s3 eid).activeRequests rid = alDelete s.activeRequests rid
    rw [hvs_active, ha]
    rfl
  · rw [hcc]
    show (verboseStage s3 eid).entries = _
    rw [hvs_entries, hb]
    rfl
  · rw [hcc]
    show (verboseStage s3 eid).verbose = s.verbose
    rw [hvs_verbose, hver]
  · rw [hcc]
    show (verboseStage s3 eid).pendingCtrl = s.pendingCtrl
    rw [hvs_pending, hd]
    rfl
  · rw [hcc]
    show (verboseStage s3 eid).conts = s.conts
    rw [hvs_conts, he]
    rfl
  · rw [hcc]
    show (verboseStage s3 eid).timeouts = s.timeouts
    rw [hvs_timeouts, hf]
    rfl
  · rw [hcc]
    show (verboseStage s3 eid).nextEid = s.nextEid
    rw [hvs_nextEid, hg]
    rfl
  · rw [hcc]
    show (verboseStage s3 eid).nextCtrl = s.nextCtrl
    rw [hvs_nextCtrl, hi]
    rfl
  · rw [hcc]
    show (verboseStage s3 eid).nextTid = s.nextTid
    rw [hvs_nextTid, hj]
    rfl
  · rw [hcc]
    show (verboseStage s3 eid).listeners = s.listeners
    rw [hvs_listeners, hk]
    rfl
  · refine ⟨evs, ?_, hnone⟩
    rw [hcc]
    show (verboseStage s3 eid).trace = _
    rw [hvs_trace, htr, hver]
    rfl

theorem cancelRun_none {s : ManagerState} {rid : String}
    (h : alGet s.activeRequests rid = none) : cancelRun s rid = (s, false) := by
  unfold cancelRun
  rw [h]

theorem cancelRun_some {s : ManagerState} {rid : String} {eid : Nat}
    (h : alGet s.activeRequests rid = some eid) :
    cancelRun s rid = (cancelCore s rid eid, true) := by
  unfold cancelRun
  rw [h]

theorem cancelRun_snd (s : ManagerState) (rid : String) :
    (cancelRun s rid).2 = (alGet s.activeRequests rid).isSome := by
  cases h : alGet s.activeRequests rid
  · rw [cancelRun_none h]
    rfl
  · rw [cancelRun_some h]
    rfl

theorem cancelRun_active (s : ManagerState) (rid : String) :
    (cancelRun s rid).1.activeRequests =
      if (alGet s.activeRequests rid).isSome then alDelete s.activeRequests rid
      else s.activeRequests := by
  cases h : alGet s.activeRequests rid
  · rw [cancelRun_none h]
    simp
  · rw [cancelRun_some h]
    simpa using (cancelCore_shape s rid _).activeEq

/-- Claim C5: identity resolution without suppression is deterministic
(it is a function of its inputs); the three URLs of the claim collapse to
one identity (scheme, query string and fragment stripped); an explicit
key yields an identity that does not depend on the URL. -/
theorem c5_identity_resolution :
    (∀ n r n2 r2 n3 r3 : String,
      generateRequestId ("https://h/api/x?y=1#z") none false n r = ("request_h/api/x") ∧
      generateRequestId ("https://h/api/x?y=2") none false n2 r2 = ("request_h/api/x") ∧
      generateRequestId ("h/api/x") none false n3 r3 = ("request_h/api/x")) ∧
    (∀ (url url2 : String) (n r n2 r2 : String),
      generateRequestId url (some (RequestKey.lit ("custom"))) false n r =
        generateRequestId url2 (some (RequestKey.lit ("custom"))) false n2 r2) := by
  constructor
  · intro n r n2 r2 n3 r3
    exact ⟨rfl, rfl, rfl⟩
  · intro url url2 n r n2 r2
    rfl

/-- Claim C6: cancel on an absent id returns false and changes nothing;
cancel on a present id removes that entry and returns true, so a second
cancel with the same id returns false. -/
theorem c6_cancel_idempotent (s : ManagerState) (rid : String) :
    (alGet s.activeRequests rid = none → cancelRun s rid = (s, false)) ∧
    (∀ eid, alGet s.activeRequests rid = some eid →
      (cancelRun s rid).2 = true ∧
      alGet (cancelRun s rid).1.activeRequests rid = none ∧
      (cancelRun (cancelRun s rid).1 rid).2 = false) := by
  refine ⟨fun h => cancelRun_none h, fun eid h => ?_⟩
  have hsh := cancelCore_shape s rid eid
  rw [cancelRun_some h]
  refine ⟨rfl, ?_, ?_⟩
  · show alGet (cancelCore s rid eid).activeRequests rid = none
    rw [hsh.activeEq]
    exact alGet_alDelete_self _ _
  · show (cancelRun (cancelCore s rid eid) rid).2 = false
    rw [cancelRun_snd, hsh.activeEq, alGet_alDelete_self]
    rfl

theorem c6_cancel_idempotent_witness :
    (cancelRun (initState false) ("a") = (initState false, false)) ∧
    ((cancelRun sampleState ("a")).2 = true ∧
      alGet (cancelRun sampleState ("a")).1.activeRequests ("a") = none ∧
      (cancelRun (cancelRun sampleState ("a")).1 ("a")).2 = false) :=
  ⟨(c6_cancel_idempotent (initState false) ("a")).1 (by decide),
    (c6_cancel_idempotent sampleState ("a")).2 0 (by decide)⟩

/-- Claim C9: clear empties the table (active count zero, no identity
active) while performing no cancellation side effect: no entry object is
touched (entries unchanged, so no cancelled flag set), no controller is
aborted, and no event is emitted (trace unchanged, so no abort, no cancel
token invocation, and no wrapper settlement). -/
theorem c9_clear_frame (s : ManagerState) :
    getActiveCount (clearRun s) = 0 ∧
    (∀ rid, isActiveRun (clearRun s) rid = false) ∧
    (clearRun s).trace = s.trace ∧
    (clearRun s).entries = s.entries ∧
    (clearRun s).abortedCtrls = s.abortedCtrls ∧
    (clearRun s).conts = s.conts ∧
    (clearRun s).timeouts = s.timeouts := by
  refine ⟨rfl, ?_, rfl, rfl, rfl, rfl, rfl⟩
  intro rid
  rfl

theorem alDelete_eq_self {κ α : Type} [DecidableEq κ] {m : List (κ × α)} {k : κ}
    (h : ∀ p ∈ m, p.1 ≠ k) : alDelete m k = m := by
  induction m with
  | nil => rfl
  | cons p rest ih =>
      rw [alDelete, if_neg (h p (List.mem_cons_self _ _))]
      rw [ih (fun q hq => h q (List.mem_cons_of_mem _ hq))]

theorem cancelRun_pres_entrySome {s : ManagerState} {rid : String} {e : Nat}
    (h : (alGet s.entries e).isSome) :
    (alGet (cancelRun s rid).1.entries e).isSome := by
  cases hg : alGet s.activeRequests rid
  · rw [cancelRun_none hg]
    exact h
  · rw [cancelRun_some hg]
    show (alGet (cancelCore s rid _).entries e).isSome
    rw [(cancelCore_shape s rid _).entriesEq, alUpdate_isSome]
    exact h

theorem cancelRun_pres_mark {s : ManagerState} {rid : String} {e : Nat}
    (h : entryCancelled s e = true) :
    entryCancelled (cancelRun s rid).1 e = true := by
  cases hg : alGet s.activeRequests rid with
  | none =>
      rw [cancelRun_none hg]
      exact h
  | some eid =>
      rw [cancelRun_some hg]
      show entryCancelled (cancelCore s rid eid) e = true
      unfold entryCancelled at h ⊢
      rw [(cancelCore_shape s rid eid).entriesEq]
      by_cases he : e = eid
      · subst he
        rw [alGet_alUpdate_self]
        cases hd : alGet s.entries e
        · rw [hd] at h
          simp at h
        · simp [hd]
      · rw [alGet_alUpdate_ne _ _ _ he]
        exact h

theorem cancelRun_marks {s : ManagerState} {rid : String} {eid : Nat}
    (hg : alGet s.activeRequests rid = some eid)
    (hsome : (alGet s.entries eid).isSome) :
    entryCancelled (cancelRun s rid).1 eid = true := by
  rw [cancelRun_some hg]
  show entryCancelled (cancelCore s rid eid) eid = true
  unfold entryCancelled
  rw [(cancelCore_shape s rid eid).entriesEq, alGet_alUpdate_self]
  obtain ⟨d, hd⟩ := Option.isSome_iff_exists.mp hsome
  simp [hd]

theorem foldl_cancelFold_pres_mark (ids : List String) :
    ∀ (acc : ManagerState × Nat) (e : Nat), entryCancelled acc.1 e = true →
      entryCancelled (ids.foldl cancelFold acc).1 e = true := by
  induction ids with
  | nil => intro acc e h; exact h
  | cons rid rest ih =>
      intro acc e h
      rw [List.foldl_cons]
      exact ih _ e (cancelRun_pres_mark h)

theorem cancelFold_complete (ids : List String) :
    ∀ (s : ManagerState) (n : Nat),
      keysOf s.activeRequests = ids → ids.Nodup →
      (∀ p ∈ s.activeRequests, (alGet s.entries p.2).isSome) →
      (ids.foldl cancelFold (s, n)).2 = n + ids.length ∧
      (ids.foldl cancelFold (s, n)).1.activeRequests = [] ∧
      (∀ p ∈ s.activeRequests, entryCancelled (ids.foldl cancelFold (s, n)).1 p.2 = true) := by
  induction ids with
  | nil =>
      intro s n hkeys _ _
      have hempty : s.activeRequests = [] := List.map_eq_nil_iff.mp hkeys
      refine ⟨rfl, hempty, ?_⟩
      intro p hp
      rw [hempty] at hp
      exact absurd hp (List.not_mem_nil p)
  | cons k rest ih =>
      intro s n hkeys hnd hent
      cases hm : s.activeRequests with
      | nil =>
          rw [hm] at hkeys
          exact absurd hkeys.symm (List.cons_ne_nil k rest)
      | cons p m2 =>
          rw [hm] at hkeys
          simp only [keysOf, List.map_cons, List.cons.injEq] at hkeys
          obtain ⟨hp1, hkeys2⟩ := hkeys
          rw [List.nodup_cons] at hnd
          obtain ⟨hknotin, hndrest⟩ := hnd
          have hget : alGet s.activeRequests k = some p.2 := by
            rw [hm, alGet, if_pos hp1]
          have hsnd : (cancelRun s k).2 = true := by
            rw [cancelRun_snd, hget]
            rfl
          have hdelrest : alDelete m2 k = m2 := by
            refine alDelete_eq_self ?_
            intro q hq hqk
            exact hknotin (hkeys2 ▸ hqk ▸ List.mem_map_of_mem Prod.fst hq)
          have hact2 : (cancelRun s k).1.activeRequests = m2 := by
            rw [cancelRun_active, hget]
            show alDelete s.activeRequests k = m2
            rw [hm, alDelete, if_pos hp1, hdelrest]
          have hfold1 : cancelFold (s, n) k = ((cancelRun s k).1, n + 1) := by
            show ((cancelRun s k).1, if (cancelRun s k).2 then n + 1 else n) = _
            rw [hsnd]
            simp
          have hent2 : ∀ q ∈ (cancelRun s k).1.activeRequests,
              (alGet (cancelRun s k).1.entries q.2).isSome := by
            intro q hq
            rw [hact2] at hq
            exact cancelRun_pres_entrySome (hent q (hm ▸ List.mem_cons_of_mem _ hq))
          have hkeys3 : keysOf (cancelRun s k).1.activeRequests = rest := by
            rw [hact2]
            exact hkeys2
          obtain ⟨hc, hemp, hmk⟩ := ih (cancelRun s k).1 (n + 1) hkeys3 hndrest hent2
          rw [List.foldl_cons, hfold1]
          refine ⟨by rw [hc, List.length_cons]; omega, hemp, ?_⟩
          intro q hq
          rcases List.mem_cons.mp hq with rfl | hq
          · refine foldl_cancelFold_pres_mark rest _ q.2 ?_
            exact cancelRun_marks hget (hent q (by rw [hm]; exact List.mem_cons_self _ _))
          · exact hmk q (by rw [hact2]; exact hq)

theorem cancelFold_pair (ids : List String) :
    ∀ (s t : ManagerState) (n : Nat),
      s.activeRequests = t.activeRequests →
      (ids.foldl cancelFold (s, n)).2 = (ids.foldl cancelFold (t, n)).2 ∧
      (ids.foldl cancelFold (s, n)).1.activeRequests =
        (ids.foldl cancelFold (t, n)).1.activeRequests := by
  induction ids with
  | nil =>
      intro s t n h
      exact ⟨rfl, h⟩
  | cons rid rest ih =>
      intro s t n h
      have hsnd : (cancelRun s rid).2 = (cancelRun t rid).2 := by
        rw [cancelRun_snd, cancelRun_snd, h]
      have hact : (cancelRun s rid).1.activeRequests = (cancelRun t rid).1.activeRequests := by
        rw [cancelRun_active, cancelRun_active, h]
      rw [List.foldl_cons, List.foldl_cons,
        show cancelFold (s, n) rid =
          ((cancelRun s rid).1, if (cancelRun s rid).2 then n + 1 else n) from rfl,
        show cancelFold (t, n) rid =
          ((cancelRun t rid).1, if (cancelRun t rid).2 then n + 1 else n) from rfl,
        hsnd]
      exact ih _ _ _ hact

/-- Claim C2 counterexample: an entry created while verbose was true
(captured flag true) is cancelled after the manager flag was turned off,
and its proxy is not rejected; dually an entry created while verbose was
false is cancelled after the flag was turned on and its proxy is
rejected.  Both contradict gating on the entry-captured flag. -/
theorem c2_counterexample :
    (let s1 := (requestRun (initState true) ("u") (ReqInput.thenable 0)
        { abortController := none, cancelToken := none, requestKey := none, noCancel := false }
        ("0") ("x")).1
     let s2 := setOptionsRun s1 (some false)
     entryVerbose s2 0 = true ∧
     (cancelRun s2 ("request_u")).2 = true ∧
     cancelRejCount (cancelRun s2 ("request_u")).1.trace 0 = 0) ∧
    (let t1 := (requestRun (initState false) ("u") (ReqInput.thenable 0)
        { abortController := none, cancelToken := none, requestKey := none, noCancel := false }
        ("0") ("x")).1
     let t2 := setOptionsRun t1 (some true)
     entryVerbose t2 0 = false ∧
     (cancelRun t2 ("request_u")).2 = true ∧
     cancelRejCount (cancelRun t2 ("request_u")).1.trace 0 = 1) := by
  decide

/-- Claim C2 as amended: whether cancel rejects the proxy of the entry it
cancels is determined by the manager verbose flag read at the time cancel
runs; the rejection count formula mentions only that flag, so the
entry-captured flag is irrelevant to cancel. -/
theorem c2_verbose_read_at_cancel_time (s : ManagerState) (rid : String) (eid : Nat)
    (h : alGet s.activeRequests rid = some eid) :
    (cancelRun s rid).2 = true ∧
    cancelRejCount (cancelRun s rid).1.trace eid =
      cancelRejCount s.trace eid + (if s.verbose = true then 1 else 0) := by
  rw [cancelRun_some h]
  refine ⟨rfl, ?_⟩
  obtain ⟨evs, htr, hnone⟩ := (cancelCore_shape s rid eid).traceExt
  show cancelRejCount (cancelCore s rid eid).trace eid = _
  rw [htr, cancelRejCount_append, cancelRejCount_append, cancelRejCount_of_none hnone]
  by_cases hv : s.verbose = true
  · rw [if_pos hv, if_pos hv]
    simp [cancelRejCount, List.countP_cons]
  · rw [if_neg hv, if_neg hv]
    simp [cancelRejCount]

theorem c2_verbose_read_at_cancel_time_witness :
    (cancelRun sampleState ("a")).2 = true ∧
    cancelRejCount (cancelRun sampleState ("a")).1.trace 0 =
      cancelRejCount sampleState.trace 0 + (if sampleState.verbose = true then 1 else 0) :=
  c2_verbose_read_at_cancel_time sampleState ("a") 0 (by decide)

/-- Claim C7: cancelAll cancels every tracked entry (each entry object is
marked cancelled), returns the number of entries, and leaves the table
empty, for any table whose identities are distinct. -/
theorem c7_cancelAll_count (s : ManagerState)
    (hnd : (keysOf s.activeRequests).Nodup)
    (hent : ∀ p ∈ s.activeRequests, (alGet s.entries p.2).isSome) :
    (cancelAllRun s).2 = s.activeRequests.length ∧
    getActiveCount (cancelAllRun s).1 = 0 ∧
    (∀ p ∈ s.activeRequests, entryCancelled (cancelAllRun s).1 p.2 = true) := by
  obtain ⟨h1, h2, h3⟩ :=
    cancelFold_complete (keysOf s.activeRequests) s 0 rfl hnd hent
  refine ⟨?_, ?_, h3⟩
  · rw [show cancelAllRun s = (keysOf s.activeRequests).foldl cancelFold (s, 0) from rfl, h1]
    simp [keysOf]
  · rw [show cancelAllRun s = (keysOf s.activeRequests).foldl cancelFold (s, 0) from rfl]
    unfold getActiveCount
    rw [h2]
    rfl

theorem c7_cancelAll_count_witness :
    (cancelAllRun sampleState2).2 = sampleState2.activeRequests.length ∧
    getActiveCount (cancelAllRun sampleState2).1 = 0 ∧
    (∀ p ∈ sampleState2.activeRequests, entryCancelled (cancelAllRun sampleState2).1 p.2 = true) :=
  c7_cancelAll_count sampleState2 (by decide) (by decide)

/-- Claim C8: exceptions raised by the cancellation mechanisms (a
controller whose abort throws, a throwing cancel token, a throwing
linked abort handler) are caught and discarded: cancel and cancelAll are
total functions (every try/catch of the source is an explicit catch), and
their observable outcome for the caller (return value and resulting
request table) is identical to the run in which no mechanism throws. -/
theorem c8_mechanism_failures_swallowed (s : ManagerState) (rid : String) :
    (cancelRun s rid).2 = (cancelRun (clearThrowFlags s) rid).2 ∧
    (cancelRun s rid).1.activeRequests = (cancelRun (clearThrowFlags s) rid).1.activeRequests ∧
    (cancelAllRun s).2 = (cancelAllRun (clearThrowFlags s)).2 ∧
    (cancelAllRun s).1.activeRequests = (cancelAllRun (clearThrowFlags s)).1.activeRequests := by
  have hact : (clearThrowFlags s).activeRequests = s.activeRequests := rfl
  refine ⟨?_, ?_, ?_, ?_⟩
  · rw [cancelRun_snd, cancelRun_snd, hact]
  · rw [cancelRun_active, cancelRun_active, hact]
  · exact (cancelFold_pair (s.activeRequests.map Prod.fst) s (clearThrowFlags s) 0 hact.symm).1
  · exact (cancelFold_pair (s.activeRequests.map Prod.fst) s (clearThrowFlags s) 0 hact.symm).2

theorem cancelRun_pendingCtrl (s : ManagerState) (rid : String) :
    (cancelRun s rid).1.pendingCtrl = s.pendingCtrl := by
  cases h : alGet s.activeRequests rid
  · rw [cancelRun_none h]
  · rw [cancelRun_some h]
    exact (cancelCore_shape s rid _).pendingEq

theorem cancelRun_nextEid (s : ManagerState) (rid : String) :
    (cancelRun s rid).1.nextEid = s.nextEid := by
  cases h : alGet s.activeRequests rid
  · rw [cancelRun_none h]
  · rw [cancelRun_some h]
    exact (cancelCore_shape s rid _).nextEidEq

theorem cancelRun_verbose (s : ManagerState) (rid : String) :
    (cancelRun s rid).1.verbose = s.verbose := by
  cases h : alGet s.activeRequests rid
  · rw [cancelRun_none h]
  · rw [cancelRun_some h]
    exact (cancelCore_shape s rid _).verboseEq

theorem cancelRun_conts (s : ManagerState) (rid : String) :
    (cancelRun s rid).1.conts = s.conts := by
  cases h : alGet s.activeRequests rid
  · rw [cancelRun_none h]
  · rw [cancelRun_some h]
    exact (cancelCore_shape s rid _).contsEq

theorem cancelRun_timeouts (s : ManagerState) (rid : String) :
    (cancelRun s rid).1.timeouts = s.timeouts := by
  cases h : alGet s.activeRequests rid
  · rw [cancelRun_none h]
  · rw [cancelRun_some h]
    exact (cancelCore_shape s rid _).timeoutsEq

theorem cancelRun_nextCtrl (s : ManagerState) (rid : String) :
    (cancelRun s rid).1.nextCtrl = s.nextCtrl := by
  cases h : alGet s.activeRequests rid
  · rw [cancelRun_none h]
  · rw [cancelRun_some h]
    exact (cancelCore_shape s rid _).nextCtrlEq

theorem cancelRun_nextTid (s : ManagerState) (rid : String) :
    (cancelRun s rid).1.nextTid = s.nextTid := by
  cases h : alGet s.activeRequests rid
  · rw [cancelRun_none h]
  · rw [cancelRun_some h]
    exact (cancelCore_shape s rid _).nextTidEq

/-- Unfolding of the core request path when no abort controller was
supplied in the options: the pending slot is discarded, a fresh controller
numbered nextCtrl is created and stored, the previous entry under the
identity is cancelled unless suppressed, and the new entry is registered
with the fresh controller, the cancel token from the options, an
uncancelled flag, and the verbose flag captured from the manager. -/
theorem reqCore_noCtrl_spec (s : ManagerState) (rid : String) (input : ReqInput)
    (octk : Option CancelToken) (ork : Option RequestKey) (onc : Bool) :
    reqCore s rid input ⟨none, octk, ork, onc⟩ =
      (let sB : ManagerState := { s with pendingCtrl := some s.nextCtrl,
                                         nextCtrl := s.nextCtrl + 1 }
       let sC := if !onc then (cancelRun sB rid).1 else sB
       let eid := sC.nextEid
       let info : EntryData := ⟨s.nextCtrl, octk, false, sC.verbose⟩
       let sD := { sC with entries := alSet sC.entries eid info,
                           activeRequests := alSet sC.activeRequests rid eid,
                           nextEid := eid + 1 }
       (match input with
        | ReqInput.thenable uid => { sD with conts := sD.conts ++ [⟨uid, rid, eid⟩] }
        | ReqInput.fnInput uid => { sD with conts := sD.conts ++ [⟨uid, rid, eid⟩] }
        | ReqInput.strInput uid => { sD with conts := sD.conts ++ [⟨uid, rid, eid⟩] }
        | ReqInput.rawInput v =>
            { sD with timeouts := sD.timeouts ++ [⟨sD.nextTid, rid, eid, v⟩],
                      nextTid := sD.nextTid + 1 },
        ⟨rid, eid, s.nextCtrl,
          match input with
          | ReqInput.fnInput _ => some s.nextCtrl
          | ReqInput.strInput _ => some s.nextCtrl
          | _ => none⟩)) := by
  cases input <;> rfl

/-- Claim C10: a request invoked without an abortController option first
discards the pending-controller slot and creates a fresh, unaborted
controller: the controller attached to the request is the next fresh
controller number, it is not aborted, it differs from any controller
previously stored in the slot (hence from anything handed out earlier by
getAbortController or getSignal and not passed in), it is stored both in
the slot and in the new entry, and for function and URL-string inputs it
is the signal merged into the prepared configuration. -/
theorem c10_fresh_controller (s : ManagerState) (url : String) (input : ReqInput)
    (opts : ReqOptions) (now rand : String)
    (hnone : opts.abortController = none)
    (hpend : ∀ c, s.pendingCtrl = some c → c < s.nextCtrl)
    (hab : ∀ c ∈ s.abortedCtrls, c < s.nextCtrl) :
    (requestRun s url input opts now rand).2.usedCtrl = s.nextCtrl ∧
    (requestRun s url input opts now rand).2.usedCtrl ∉ s.abortedCtrls ∧
    (∀ c, s.pendingCtrl = some c → (requestRun s url input opts now rand).2.usedCtrl ≠ c) ∧
    (requestRun s url input opts now rand).1.pendingCtrl =
      some (requestRun s url input opts now rand).2.usedCtrl ∧
    (∃ d, alGet (requestRun s url input opts now rand).1.entries
        (requestRun s url input opts now rand).2.eid = some d ∧
      d.abortController = (requestRun s url input opts now rand).2.usedCtrl ∧
      d.isCancelled = false) ∧
    (∀ uid, (input = ReqInput.fnInput uid ∨ input = ReqInput.strInput uid) →
      (requestRun s url input opts now rand).2.preparedSignal =
        some (requestRun s url input opts now rand).2.usedCtrl) := by
  obtain ⟨oac, octk, ork, onc⟩ := opts
  simp only [ReqOptions.abortController] at hnone
  subst hnone
  have hrw : requestRun s url input ⟨none, octk, ork, onc⟩ now rand =
      reqCore s (generateRequestId url ork onc now rand) input ⟨none, octk, ork, onc⟩ := rfl
  rw [hrw, reqCore_noCtrl_spec]
  set rid := generateRequestId url ork onc now rand with hrid
  set sB : ManagerState := { s with pendingCtrl := some s.nextCtrl,
                                    nextCtrl := s.nextCtrl + 1 } with hsB
  set sC := if !onc then (cancelRun sB rid).1 else sB with hsC
  have hCpend : sC.pendingCtrl = some s.nextCtrl := by
    rw [hsC]
    cases onc
    · simp only [Bool.not_false, if_pos]
      rw [cancelRun_pendingCtrl]
    · simp only [Bool.not_true]
      rfl
  have hCverb : sC.verbose = s.verbose := by
    rw [hsC]
    cases onc
    · simp only [Bool.not_false, if_pos]
      rw [cancelRun_verbose]
    · simp only [Bool.not_true]
      rfl
  set eid := sC.nextEid with heid
  set info : EntryData := ⟨s.nextCtrl, octk, false, sC.verbose⟩ with hinfo
  set sD := { sC with entries := alSet sC.entries eid info,
                      activeRequests := alSet sC.activeRequests rid eid,
                      nextEid := eid + 1 } with hsD
  have hDpend : sD.pendingCtrl = some s.nextCtrl := hCpend
  have hDget : alGet sD.entries eid = some info := by
    rw [hsD]
    exact alGet_alSet_self sC.entries eid info
  cases input with
  | thenable uid =>
      refine ⟨rfl, fun hmem => ?_, fun c hc => ?_, hDpend, ⟨info, hDget, rfl, rfl⟩, ?_⟩
      · exact absurd (hab _ hmem) (Nat.lt_irrefl _)
      · exact Nat.ne_of_gt (hpend c hc)
      · intro uid2 h
        rcases h with h | h <;> exact absurd h (by simp)
  | fnInput uid =>
      refine ⟨rfl, fun hmem => ?_, fun c hc => ?_, hDpend, ⟨info, hDget, rfl, rfl⟩, ?_⟩
      · exact absurd (hab _ hmem) (Nat.lt_irrefl _)
      · exact Nat.ne_of_gt (hpend c hc)
      · intro uid2 h
        rfl
  | strInput uid =>
      refine ⟨rfl, fun hmem => ?_, fun c hc => ?_, hDpend, ⟨info, hDget, rfl, rfl⟩, ?_⟩
      · exact absurd (hab _ hmem) (Nat.lt_irrefl _)
      · exact Nat.ne_of_gt (hpend c hc)
      · intro uid2 h
        rfl
  | rawInput v =>
      refine ⟨rfl, fun hmem => ?_, fun c hc => ?_, hDpend, ⟨info, hDget, rfl, rfl⟩, ?_⟩
      · exact absurd (hab _ hmem) (Nat.lt_irrefl _)
      · exact Nat.ne_of_gt (hpend c hc)
      · intro uid2 h
        rcases h with h | h <;> exact absurd h (by simp)

theorem c10_fresh_controller_witness :
    (requestRun sampleState ("u") (ReqInput.fnInput 5)
        { abortController := none, cancelToken := none, requestKey := none, noCancel := false }
        ("t") ("r")).2.usedCtrl = sampleState.nextCtrl ∧
    (requestRun sampleState ("u") (ReqInput.fnInput 5)
        { abortController := none, cancelToken := none, requestKey := none, noCancel := false }
        ("t") ("r")).2.usedCtrl ∉ sampleState.abortedCtrls ∧
    (∀ c, sampleState.pendingCtrl = some c →
      (requestRun sampleState ("u") (ReqInput.fnInput 5)
        { abortController := none, cancelToken := none, requestKey := none, noCancel := false }
        ("t") ("r")).2.usedCtrl ≠ c) ∧
    (requestRun sampleState ("u") (ReqInput.fnInput 5)
        { abortController := none, cancelToken := none, requestKey := none, noCancel := false }
        ("t") ("r")).1.pendingCtrl =
      some (requestRun sampleState ("u") (ReqInput.fnInput 5)
        { abortController := none, cancelToken := none, requestKey := none, noCancel := false }
        ("t") ("r")).2.usedCtrl ∧
    (∃ d, alGet (requestRun sampleState ("u") (ReqInput.fnInput 5)
        { abortController := none, cancelToken := none, requestKey := none, noCancel := false }
        ("t") ("r")).1.entries
        (requestRun sampleState ("u") (ReqInput.fnInput 5)
        { abortController := none, cancelToken := none, requestKey := none, noCancel := false }
        ("t") ("r")).2.eid = some d ∧
      d.abortController = (requestRun sampleState ("u") (ReqInput.fnInput 5)
        { abortController := none, cancelToken := none, requestKey := none, noCancel := false }
        ("t") ("r")).2.usedCtrl ∧
      d.isCancelled = false) ∧
    (∀ uid, (ReqInput.fnInput 5 = ReqInput.fnInput uid ∨
        ReqInput.fnInput 5 = ReqInput.strInput uid) →
      (requestRun sampleState ("u") (ReqInput.fnInput 5)
        { abortController := none, cancelToken := none, requestKey := none, noCancel := false }
        ("t") ("r")).2.preparedSignal =
        some (requestRun sampleState ("u") (ReqInput.fnInput 5)
        { abortController := none, cancelToken := none, requestKey := none, noCancel := false }
        ("t") ("r")).2.usedCtrl) :=
  c10_fresh_controller sampleState ("u") (ReqInput.fnInput 5)
    { abortController := none, cancelToken := none, requestKey := none, noCancel := false }
    ("t") ("r") rfl (by decide) (by decide)

theorem underscore_split_inj : ∀ (a c b d : List Char),
    ('_') ∉ a → ('_') ∉ c → a ++ ('_') :: b = c ++ ('_') :: d → a = c ∧ b = d := by
  intro a
  induction a with
  | nil =>
      intro c b d ha hc h
      cases c with
      | nil =>
          rw [List.nil_append, List.nil_append] at h
          injection h with h1 h2
          exact ⟨rfl, h2⟩
      | cons y ys =>
          rw [List.nil_append, List.cons_append] at h
          injection h with h1 h2
          cases h1
          exact absurd (List.mem_cons_self _ _) hc
  | cons x xs ih =>
      intro c b d ha hc h
      cases c with
      | nil =>
          rw [List.cons_append, List.nil_append] at h
          injection h with h1 h2
          cases h1
          exact absurd (List.mem_cons_self _ _) ha
      | cons y ys =>
          rw [List.cons_append, List.cons_append] at h
          injection h with h1 h2
          subst h1
          obtain ⟨hac, hbd⟩ := ih ys b d
            (fun hm => ha (List.mem_cons_of_mem _ hm))
            (fun hm => hc (List.mem_cons_of_mem _ hm)) h2
          exact ⟨by rw [hac], hbd⟩

theorem noCancel_id_inj (url₁ url₂ : String) (k₁ k₂ : Option RequestKey)
    (now₁ rand₁ now₂ rand₂ : String)
    (h1 : ('_') ∉ now₁.toList) (h2 : ('_') ∉ now₂.toList)
    (hdiff : (now₁, rand₁) ≠ (now₂, rand₂)) :
    generateRequestId url₁ k₁ true now₁ rand₁ ≠ generateRequestId url₂ k₂ true now₂ rand₂ := by
  intro h
  have h' : ("request_") ++ now₁ ++ ("_") ++ rand₁ = ("request_") ++ now₂ ++ ("_") ++ rand₂ := h
  have hd := congrArg String.data h'
  simp only [String.data_append, List.append_assoc] at hd
  have hd2 : now₁.data ++ ('_') :: rand₁.data = now₂.data ++ ('_') :: rand₂.data := by
    have hcan := List.append_cancel_left hd
    simpa using hcan
  obtain ⟨hn, hr⟩ := underscore_split_inj now₁.data now₂.data rand₁.data rand₂.data h1 h2 hd2
  exact hdiff (by rw [Prod.mk.injEq]; exact ⟨String.ext hn, String.ext hr⟩)

/-- Claim C4 counterexample: two noCancel submits that observe the same
Date.now rendering and the same Math.random slice produce the same
identity, refuting that the generated identities always differ. -/
theorem c4_counterexample :
    (requestRun (initState false) ("u") (ReqInput.thenable 0)
        { abortController := none, cancelToken := none, requestKey := none, noCancel := true }
        ("5") ("ab")).2.requestId =
    (requestRun ((requestRun (initState false) ("u") (ReqInput.thenable 0)
        { abortController := none, cancelToken := none, requestKey := none, noCancel := true }
        ("5") ("ab")).1) ("u") (ReqInput.thenable 1)
        { abortController := none, cancelToken := none, requestKey := none, noCancel := true }
        ("5") ("ab")).2.requestId := by
  decide

/-- Claim C4 as amended: for two noCancel submits whose oracle pairs
(timestamp rendering, random slice) differ, with underscore-free
timestamps as Date.now produces, the generated identities differ; a
noCancel submit never invokes cancellation (no trace event is emitted and
neither entry is marked cancelled); both entries stay registered and each
proxy resolves with its own call outcome. -/
theorem c4_noCancel_independent (url₁ url₂ : String) (k₁ k₂ : Option RequestKey)
    (octk₁ octk₂ : Option CancelToken) (u₁ u₂ v₁ v₂ : Nat)
    (now₁ rand₁ now₂ rand₂ : String)
    (h1 : ('_') ∉ now₁.toList) (h2 : ('_') ∉ now₂.toList)
    (hdiff : (now₁, rand₁) ≠ (now₂, rand₂))
    (hu : u₁ ≠ u₂) :
    (requestRun (initState false) url₁ (ReqInput.thenable u₁)
        ⟨none, octk₁, k₁, true⟩ now₁ rand₁).2.requestId ≠
      (requestRun ((requestRun (initState false) url₁ (ReqInput.thenable u₁)
        ⟨none, octk₁, k₁, true⟩ now₁ rand₁).1) url₂ (ReqInput.thenable u₂)
        ⟨none, octk₂, k₂, true⟩ now₂ rand₂).2.requestId ∧
    (requestRun ((requestRun (initState false) url₁ (ReqInput.thenable u₁)
        ⟨none, octk₁, k₁, true⟩ now₁ rand₁).1) url₂ (ReqInput.thenable u₂)
        ⟨none, octk₂, k₂, true⟩ now₂ rand₂).1.trace = [] ∧
    entryCancelled (requestRun ((requestRun (initState false) url₁ (ReqInput.thenable u₁)
        ⟨none, octk₁, k₁, true⟩ now₁ rand₁).1) url₂ (ReqInput.thenable u₂)
        ⟨none, octk₂, k₂, true⟩ now₂ rand₂).1 0 = false ∧
    entryCancelled (requestRun ((requestRun (initState false) url₁ (ReqInput.thenable u₁)
        ⟨none, octk₁, k₁, true⟩ now₁ rand₁).1) url₂ (ReqInput.thenable u₂)
        ⟨none, octk₂, k₂, true⟩ now₂ rand₂).1 1 = false ∧
    (deliverRun (deliverRun (requestRun ((requestRun (initState false) url₁
        (ReqInput.thenable u₁) ⟨none, octk₁, k₁, true⟩ now₁ rand₁).1) url₂
        (ReqInput.thenable u₂) ⟨none, octk₂, k₂, true⟩ now₂ rand₂).1
        u₁ (Outcome.fulfilled v₁)) u₂ (Outcome.fulfilled v₂)).trace =
      [Event.proxyResolved 0 v₁, Event.proxyResolved 1 v₂] := by
  set rid₁ := generateRequestId url₁ k₁ true now₁ rand₁ with hr1
  set rid₂ := generateRequestId url₂ k₂ true now₂ rand₂ with hr2
  have hne : rid₁ ≠ rid₂ :=
    noCancel_id_inj url₁ url₂ k₁ k₂ now₁ rand₁ now₂ rand₂ h1 h2 hdiff
  have e₁ : (requestRun (initState false) url₁ (ReqInput.thenable u₁)
      ⟨none, octk₁, k₁, true⟩ now₁ rand₁).1 =
      ({ activeRequests := [(rid₁, 0)], entries := [(0, ⟨0, octk₁, false, false⟩)], verbose := false, pendingCtrl := some 0, abortedCtrls := [], ctrlThrows := [], listeners := [], conts := [⟨u₁, rid₁, 0⟩], timeouts := [], nextEid := 1, nextCtrl := 1, nextTid := 0, trace := [] } : ManagerState) := rfl
  have e₂ : (requestRun ((requestRun (initState false) url₁ (ReqInput.thenable u₁)
      ⟨none, octk₁, k₁, true⟩ now₁ rand₁).1) url₂ (ReqInput.thenable u₂)
      ⟨none, octk₂, k₂, true⟩ now₂ rand₂).1 =
      ({ activeRequests := [(rid₁, 0), (rid₂, 1)], entries := [(0, ⟨0, octk₁, false, false⟩), (1, ⟨1, octk₂, false, false⟩)], verbose := false, pendingCtrl := some 1, abortedCtrls := [], ctrlThrows := [], listeners := [], conts := [⟨u₁, rid₁, 0⟩, ⟨u₂, rid₂, 1⟩], timeouts := [], nextEid := 2, nextCtrl := 2, nextTid := 0, trace := [] } : ManagerState) := by
    rw [e₁]
    have hset : alSet [(rid₁, (0 : Nat))] rid₂ 1 = [(rid₁, 0), (rid₂, 1)] := by
      rw [alSet, if_neg hne]
      rfl
    have e2pre : (requestRun ({ activeRequests := [(rid₁, 0)], entries := [(0, ⟨0, octk₁, false, false⟩)], verbose := false, pendingCtrl := some 0, abortedCtrls := [], ctrlThrows := [], listeners := [], conts := [⟨u₁, rid₁, 0⟩], timeouts := [], nextEid := 1, nextCtrl := 1, nextTid := 0, trace := [] } : ManagerState) url₂ (ReqInput.thenable u₂) ⟨none, octk₂, k₂, true⟩ now₂ rand₂).1 = ({ activeRequests := alSet [(rid₁, 0)] rid₂ 1, entries := [(0, ⟨0, octk₁, false, false⟩), (1, ⟨1, octk₂, false, false⟩)], verbose := false, pendingCtrl := some 1, abortedCtrls := [], ctrlThrows := [], listeners := [], conts := [⟨u₁, rid₁, 0⟩, ⟨u₂, rid₂, 1⟩], timeouts := [], nextEid := 2, nextCtrl := 2, nextTid := 0, trace := [] } : ManagerState) := rfl
    rw [e2pre, hset]
  refine ⟨hne, ?_, ?_, ?_, ?_⟩
  · rw [e₂]
  · rw [e₂]
    rfl
  · rw [e₂]
    rfl
  · rw [e₂]
    have h21 : ((u₂ == u₁) : Bool) = false := beq_eq_false_iff_ne.mpr (Ne.symm hu)
    have hfil1 : List.filter (fun c => c.uid == u₁) [(⟨u₁, rid₁, 0⟩ : PCont), ⟨u₂, rid₂, 1⟩] =
        [⟨u₁, rid₁, 0⟩] := by
      simp [List.filter_cons, h21]
    have hfil2 : List.filter (fun c => !(c.uid == u₁)) [(⟨u₁, rid₁, 0⟩ : PCont), ⟨u₂, rid₂, 1⟩] =
        [⟨u₂, rid₂, 1⟩] := by
      simp [List.filter_cons, h21]
    have hdel1 : deliverRun ({ activeRequests := [(rid₁, 0), (rid₂, 1)], entries := [(0, ⟨0, octk₁, false, false⟩), (1, ⟨1, octk₂, false, false⟩)], verbose := false, pendingCtrl := some 1, abortedCtrls := [], ctrlThrows := [], listeners := [], conts := [⟨u₁, rid₁, 0⟩, ⟨u₂, rid₂, 1⟩], timeouts := [], nextEid := 2, nextCtrl := 2, nextTid := 0, trace := [] } : ManagerState) u₁ (Outcome.fulfilled v₁) = List.foldl (runPCont (Outcome.fulfilled v₁)) ({ activeRequests := [(rid₁, 0), (rid₂, 1)], entries := [(0, ⟨0, octk₁, false, false⟩), (1, ⟨1, octk₂, false, false⟩)], verbose := false, pendingCtrl := some 1, abortedCtrls := [], ctrlThrows := [], listeners := [], conts := [⟨u₂, rid₂, 1⟩], timeouts := [], nextEid := 2, nextCtrl := 2, nextTid := 0, trace := [] } : ManagerState) [⟨u₁, rid₁, 0⟩] := by
      unfold deliverRun
      rw [hfil1, hfil2]
    rw [hdel1]
    have hstep1 : runPCont (Outcome.fulfilled v₁) ({ activeRequests := [(rid₁, 0), (rid₂, 1)], entries := [(0, ⟨0, octk₁, false, false⟩), (1, ⟨1, octk₂, false, false⟩)], verbose := false, pendingCtrl := some 1, abortedCtrls := [], ctrlThrows := [], listeners := [], conts := [⟨u₂, rid₂, 1⟩], timeouts := [], nextEid := 2, nextCtrl := 2, nextTid := 0, trace := [] } : ManagerState) ⟨u₁, rid₁, 0⟩ = ({ activeRequests := [(rid₂, 1)], entries := [(0, ⟨0, octk₁, false, false⟩), (1, ⟨1, octk₂, false, false⟩)], verbose := false, pendingCtrl := some 1, abortedCtrls := [], ctrlThrows := [], listeners := [], conts := [⟨u₂, rid₂, 1⟩], timeouts := [], nextEid := 2, nextCtrl := 2, nextTid := 0, trace := [Event.proxyResolved 0 v₁] } : ManagerState) := by
      have h00 : alGet [(rid₁, (0 : Nat)), (rid₂, 1)] rid₁ = some 0 := by
        rw [alGet, if_pos rfl]
      have hdel : alDelete [(rid₁, (0 : Nat)), (rid₂, 1)] rid₁ = [(rid₂, 1)] := by
        rw [alDelete, if_pos rfl, alDelete, if_neg (Ne.symm hne), alDelete]
      simp [runPCont, h00, hdel, entryCancelled, alGet]
    rw [List.foldl_cons, hstep1, List.foldl_nil]
    have hfil3 : List.filter (fun c => c.uid == u₂) [(⟨u₂, rid₂, 1⟩ : PCont)] =
        [⟨u₂, rid₂, 1⟩] := by
      simp [List.filter]
    have hfil4 : List.filter (fun c => !(c.uid == u₂)) [(⟨u₂, rid₂, 1⟩ : PCont)] = [] := by
      simp [List.filter]
    have hdel2 : deliverRun ({ activeRequests := [(rid₂, 1)], entries := [(0, ⟨0, octk₁, false, false⟩), (1, ⟨1, octk₂, false, false⟩)], verbose := false, pendingCtrl := some 1, abortedCtrls := [], ctrlThrows := [], listeners := [], conts := [⟨u₂, rid₂, 1⟩], timeouts := [], nextEid := 2, nextCtrl := 2, nextTid := 0, trace := [Event.proxyResolved 0 v₁] } : ManagerState) u₂ (Outcome.fulfilled v₂) = List.foldl (runPCont (Outcome.fulfilled v₂)) ({ activeRequests := [(rid₂, 1)], entries := [(0, ⟨0, octk₁, false, false⟩), (1, ⟨1, octk₂, false, false⟩)], verbose := false, pendingCtrl := some 1, abortedCtrls := [], ctrlThrows := [], listeners := [], conts := [], timeouts := [], nextEid := 2, nextCtrl := 2, nextTid := 0, trace := [Event.proxyResolved 0 v₁] } : ManagerState) [⟨u₂, rid₂, 1⟩] := by
      unfold deliverRun
      rw [hfil3, hfil4]
    rw [hdel2]
    rw [List.foldl_cons, List.foldl_nil]
    have h11 : alGet [(rid₂, (1 : Nat))] rid₂ = some 1 := by
      rw [alGet, if_pos rfl]
    have hdel3 : alDelete [(rid₂, (1 : Nat))] rid₂ = [] := by
      rw [alDelete, if_pos rfl, alDelete]
    simp [runPCont, h11, hdel3, entryCancelled, alGet]

theorem c4_noCancel_independent_witness :
    (requestRun (initState false) ("a") (ReqInput.thenable 0) ⟨none, none, none, true⟩ ("5") ("ab")).2.requestId ≠ (requestRun ((requestRun (initState false) ("a") (ReqInput.thenable 0) ⟨none, none, none, true⟩ ("5") ("ab")).1) ("b") (ReqInput.thenable 1) ⟨none, none, none, true⟩ ("6") ("cd")).2.requestId ∧
    (requestRun ((requestRun (initState false) ("a") (ReqInput.thenable 0) ⟨none, none, none, true⟩ ("5") ("ab")).1) ("b") (ReqInput.thenable 1) ⟨none, none, none, true⟩ ("6") ("cd")).1.trace = [] ∧
    entryCancelled (requestRun ((requestRun (initState false) ("a") (ReqInput.thenable 0) ⟨none, none, none, true⟩ ("5") ("ab")).1) ("b") (ReqInput.thenable 1) ⟨none, none, none, true⟩ ("6") ("cd")).1 0 = false ∧
    entryCancelled (requestRun ((requestRun (initState false) ("a") (ReqInput.thenable 0) ⟨none, none, none, true⟩ ("5") ("ab")).1) ("b") (ReqInput.thenable 1) ⟨none, none, none, true⟩ ("6") ("cd")).1 1 = false ∧
    (deliverRun (deliverRun (requestRun ((requestRun (initState false) ("a") (ReqInput.thenable 0) ⟨none, none, none, true⟩ ("5") ("ab")).1) ("b") (ReqInput.thenable 1) ⟨none, none, none, true⟩ ("6") ("cd")).1 0 (Outcome.fulfilled 10)) 1 (Outcome.fulfilled 20)).trace =
      [Event.proxyResolved 0 10, Event.proxyResolved 1 20] :=
  c4_noCancel_independent ("a") ("b") none none none none 0 1 10 20 ("5") ("ab") ("6") ("cd")
    (by decide) (by decide) (by decide) (by decide)

theorem cancelRun_entries (s : ManagerState) (rid : String) :
    (cancelRun s rid).1.entries =
      match alGet s.activeRequests rid with
      | none => s.entries
      | some e0 => alUpdate (fun d => { d with isCancelled := true }) s.entries e0 := by
  cases h : alGet s.activeRequests rid
  · rw [cancelRun_none h]
  · rw [cancelRun_some h]
    exact (cancelCore_shape s rid _).entriesEq

theorem cancelRun_traceExt (s : ManagerState) (rid : String) :
    ∃ evs, (cancelRun s rid).1.trace = s.trace ++ evs ∧
      ((∀ e ∈ evs, settleTarget e = none) ∨
       (∃ e0 evs1, alGet s.activeRequests rid = some e0 ∧
          evs = evs1 ++ [Event.proxyRejectedCancelled e0] ∧
          (∀ e ∈ evs1, settleTarget e = none))) := by
  cases h : alGet s.activeRequests rid with
  | none =>
      refine ⟨[], ?_, Or.inl (by simp)⟩
      rw [cancelRun_none h, List.append_nil]
  | some e0 =>
      rw [cancelRun_some h]
      obtain ⟨evs1, htr, hnone⟩ := (cancelCore_shape s rid e0).traceExt
      by_cases hv : s.verbose = true
      · refine ⟨evs1 ++ [Event.proxyRejectedCancelled e0], ?_,
          Or.inr ⟨e0, evs1, rfl, rfl, hnone⟩⟩
        rw [htr, if_pos hv, List.append_assoc]
      · refine ⟨evs1, ?_, Or.inl hnone⟩
        rw [htr, if_neg hv, List.append_nil]

theorem reqCore_requestId (s : ManagerState) (rid : String) (input : ReqInput)
    (opts : ReqOptions) : (reqCore s rid input opts).2.requestId = rid := by
  obtain ⟨oac, octk, ork, onc⟩ := opts
  cases oac <;> cases onc <;> cases input <;> rfl

theorem reqCore_eid (s : ManagerState) (rid : String) (input : ReqInput)
    (opts : ReqOptions) : (reqCore s rid input opts).2.eid = s.nextEid := by
  obtain ⟨oac, octk, ork, onc⟩ := opts
  cases oac <;> cases onc <;> cases input <;>
    simp [reqCore, getAbortControllerRun, cancelRun_nextEid]

theorem reqCore_nextEid (s : ManagerState) (rid : String) (input : ReqInput)
    (opts : ReqOptions) : (reqCore s rid input opts).1.nextEid = s.nextEid + 1 := by
  obtain ⟨oac, octk, ork, onc⟩ := opts
  cases oac <;> cases onc <;> cases input <;>
    simp [reqCore, getAbortControllerRun, cancelRun_nextEid]

theorem reqCore_active (s : ManagerState) (rid : String) (input : ReqInput)
    (opts : ReqOptions) :
    (reqCore s rid input opts).1.activeRequests =
      alSet (if opts.noCancel = true then s.activeRequests
             else if (alGet s.activeRequests rid).isSome then alDelete s.activeRequests rid
             else s.activeRequests) rid s.nextEid := by
  obtain ⟨oac, octk, ork, onc⟩ := opts
  cases oac <;> cases onc <;> cases input <;>
    simp [reqCore, getAbortControllerRun, cancelRun_nextEid, cancelRun_active]

theorem reqCore_entries_ex (s : ManagerState) (rid : String) (input : ReqInput)
    (opts : ReqOptions) :
    ∃ ctrl, (reqCore s rid input opts).1.entries =
      alSet (if opts.noCancel = true then s.entries
             else match alGet s.activeRequests rid with
                  | none => s.entries
                  | some e0 => alUpdate (fun d => { d with isCancelled := true }) s.entries e0)
        s.nextEid ⟨ctrl, opts.cancelToken, false, s.verbose⟩ := by
  obtain ⟨oac, octk, ork, onc⟩ := opts
  cases oac with
  | none =>
      refine ⟨s.nextCtrl, ?_⟩
      cases onc <;> cases input <;>
        simp [reqCore, getAbortControllerRun, cancelRun_nextEid, cancelRun_entries,
          cancelRun_verbose]
  | some c =>
      refine ⟨c, ?_⟩
      cases onc <;> cases input <;>
        simp [reqCore, getAbortControllerRun, cancelRun_nextEid, cancelRun_entries,
          cancelRun_verbose]

theorem reqCore_traceExt (s : ManagerState) (rid : String) (input : ReqInput)
    (opts : ReqOptions) :
    ∃ evs, (reqCore s rid input opts).1.trace = s.trace ++ evs ∧
      ((∀ e ∈ evs, settleTarget e = none) ∨
       (∃ e0 evs1, alGet s.activeRequests rid = some e0 ∧
          evs = evs1 ++ [Event.proxyRejectedCancelled e0] ∧
          (∀ e ∈ evs1, settleTarget e = none))) := by
  obtain ⟨oac, octk, ork, onc⟩ := opts
  cases onc with
  | true =>
      refine ⟨[], ?_, Or.inl (by simp)⟩
      cases oac <;> cases input <;>
        simp [reqCore, getAbortControllerRun]
  | false =>
      cases oac with
      | none =>
          obtain ⟨evs, htr, hdis⟩ := cancelRun_traceExt
            { s with pendingCtrl := some s.nextCtrl, nextCtrl := s.nextCtrl + 1 } rid
          refine ⟨evs, ?_, ?_⟩
          · cases input <;> exact htr
          · exact hdis
      | some c =>
          obtain ⟨evs, htr, hdis⟩ := cancelRun_traceExt s rid
          refine ⟨evs, ?_, ?_⟩
          · cases input <;> exact htr
          · exact hdis

theorem cancelRun_resolveCount (s : ManagerState) (rid : String) (eid : Nat) :
    resolveCount (cancelRun s rid).1.trace eid = resolveCount s.trace eid := by
  obtain ⟨evs, htr, hdis⟩ := cancelRun_traceExt s rid
  rw [htr, resolveCount_append]
  rcases hdis with hn | ⟨e0, evs1, _, rfl, hn⟩
  · rw [resolveCount_of_none hn]
    omega
  · rw [resolveCount_append, resolveCount_of_none hn]
    have hz : resolveCount [Event.proxyRejectedCancelled e0] eid = 0 := by
      simp [resolveCount, List.countP_cons]
    rw [hz]
    omega

theorem reqCore_resolveCount (s : ManagerState) (rid : String) (input : ReqInput)
    (opts : ReqOptions) (eid : Nat) :
    resolveCount (reqCore s rid input opts).1.trace eid = resolveCount s.trace eid := by
  obtain ⟨evs, htr, hdis⟩ := reqCore_traceExt s rid input opts
  rw [htr, resolveCount_append]
  rcases hdis with hn | ⟨e0, evs1, _, rfl, hn⟩
  · rw [resolveCount_of_none hn]
    omega
  · rw [resolveCount_append, resolveCount_of_none hn]
    have hz : resolveCount [Event.proxyRejectedCancelled e0] eid = 0 := by
      simp [resolveCount, List.countP_cons]
    rw [hz]
    omega

theorem gone_transport {eid : Nat} {s t : ManagerState}
    (ha : t.activeRequests = s.activeRequests) (hn : t.nextEid = s.nextEid)
    (ht : t.trace = s.trace) (h : GoneP eid s) : GoneP eid t := by
  obtain ⟨h1, h2, h3⟩ := h
  refine ⟨?_, ?_, ?_⟩
  · rw [ha]; exact h1
  · rw [hn]; exact h2
  · rw [ht]; exact h3

theorem cancelRun_gone {eid : Nat} {s : ManagerState} {rid : String}
    (h : GoneP eid s) : GoneP eid (cancelRun s rid).1 := by
  obtain ⟨h1, h2, h3⟩ := h
  refine ⟨?_, ?_, ?_⟩
  · intro p hp
    rw [cancelRun_active] at hp
    by_cases hs : (alGet s.activeRequests rid).isSome
    · rw [if_pos hs] at hp
      exact h1 p (mem_alDelete.mp hp).1
    · rw [if_neg hs] at hp
      exact h1 p hp
  · rw [cancelRun_nextEid]
    exact h2
  · rw [cancelRun_resolveCount]
    exact h3

theorem reqCore_gone {eid : Nat} {s : ManagerState} {rid : String} {input : ReqInput}
    {opts : ReqOptions} (h : GoneP eid s) : GoneP eid (reqCore s rid input opts).1 := by
  obtain ⟨h1, h2, h3⟩ := h
  refine ⟨?_, ?_, ?_⟩
  · intro p hp
    rw [reqCore_active] at hp
    rcases mem_alSet hp with hp | rfl
    · by_cases hb : opts.noCancel = true
      · rw [if_pos hb] at hp
        exact h1 p hp
      · rw [if_neg hb] at hp
        by_cases hs : (alGet s.activeRequests rid).isSome
        · rw [if_pos hs] at hp
          exact h1 p (mem_alDelete.mp hp).1
        · rw [if_neg hs] at hp
          exact h1 p hp
    · show s.nextEid ≠ eid
      omega
  · rw [reqCore_nextEid]
    omega
  · rw [reqCore_resolveCount]
    exact h3

theorem runPCont_gone {eid : Nat} (oc : Outcome) {s : ManagerState} (c : PCont)
    (h : GoneP eid s) : GoneP eid (runPCont oc s c) := by
  obtain ⟨h1, h2, h3⟩ := h
  cases oc with
  | fulfilled v =>
      cases hg : alGet s.activeRequests c.requestId with
      | none =>
          have heq : runPCont (Outcome.fulfilled v) s c = s := by
            simp only [runPCont, hg]
          rw [heq]
          exact ⟨h1, h2, h3⟩
      | some cur =>
          by_cases hcond : cur = c.eid ∧ entryCancelled s c.eid = false
          · have heq : runPCont (Outcome.fulfilled v) s c =
                { s with activeRequests := alDelete s.activeRequests c.requestId,
                         trace := s.trace ++ [Event.proxyResolved c.eid v] } := by
              simp only [runPCont, hg]
              rw [if_pos hcond]
            rw [heq]
            refine ⟨fun p hp => h1 p (mem_alDelete.mp hp).1, h2, ?_⟩
            show resolveCount (s.trace ++ [Event.proxyResolved c.eid v]) eid = 0
            have hne : c.eid ≠ eid := hcond.1 ▸ h1 _ (alGet_mem hg)
            rw [resolveCount_append, h3]
            simp [resolveCount, List.countP_cons, hne]
          · have heq : runPCont (Outcome.fulfilled v) s c = s := by
              simp only [runPCont, hg]
              rw [if_neg hcond]
            rw [heq]
            exact ⟨h1, h2, h3⟩
  | rejected e =>
      cases hg : alGet s.activeRequests c.requestId with
      | none =>
          have heq : runPCont (Outcome.rejected e) s c = s := by
            simp only [runPCont, hg]
          rw [heq]
          exact ⟨h1, h2, h3⟩
      | some cur =>
          by_cases hcur : cur = c.eid
          · by_cases hca : entryCancelled s c.eid = false
            · have heq : runPCont (Outcome.rejected e) s c =
                  { s with activeRequests := alDelete s.activeRequests c.requestId,
                           trace := s.trace ++ [Event.proxyRejectedTransport c.eid e] } := by
                simp only [runPCont, hg]
                rw [if_pos hcur, if_pos hca]
              rw [heq]
              refine ⟨fun p hp => h1 p (mem_alDelete.mp hp).1, h2, ?_⟩
              show resolveCount (s.trace ++ [Event.proxyRejectedTransport c.eid e]) eid = 0
              rw [resolveCount_append, h3]
              simp [resolveCount, List.countP_cons]
            · by_cases hv : entryVerbose s c.eid = true
              · have heq : runPCont (Outcome.rejected e) s c =
                    { s with activeRequests := alDelete s.activeRequests c.requestId,
                             trace := s.trace ++ [Event.proxyRejectedCancelled c.eid] } := by
                  simp only [runPCont, hg]
                  rw [if_pos hcur, if_neg hca, if_pos hv]
                rw [heq]
                refine ⟨fun p hp => h1 p (mem_alDelete.mp hp).1, h2, ?_⟩
                show resolveCount (s.trace ++ [Event.proxyRejectedCancelled c.eid]) eid = 0
                rw [resolveCount_append, h3]
                simp [resolveCount, List.countP_cons]
              · have heq : runPCont (Outcome.rejected e) s c =
                    { s with activeRequests := alDelete s.activeRequests c.requestId } := by
                  simp only [runPCont, hg]
                  rw [if_pos hcur, if_neg hca, if_neg hv]
                rw [heq]
                exact ⟨fun p hp => h1 p (mem_alDelete.mp hp).1, h2, h3⟩
          · have heq : runPCont (Outcome.rejected e) s c = s := by
              simp only [runPCont, hg]
              rw [if_neg hcur]
            rw [heq]
            exact ⟨h1, h2, h3⟩

theorem foldl_pres {α : Type} (P : ManagerState → Prop) (f : ManagerState → α → ManagerState)
    (hf : ∀ s a, P s → P (f s a)) :
    ∀ (l : List α) (s : ManagerState), P s → P (l.foldl f s) := by
  intro l
  induction l with
  | nil => intro s h; exact h
  | cons a as ih =>
      intro s h
      exact ih _ (hf s a h)

theorem deliverRun_gone {eid : Nat} {s : ManagerState} (uid : Nat) (oc : Outcome)
    (h : GoneP eid s) : GoneP eid (deliverRun s uid oc) := by
  unfold deliverRun
  exact foldl_pres (GoneP eid) (runPCont oc) (fun t c ht => runPCont_gone oc c ht) _ _
    (gone_transport rfl rfl rfl h)

theorem runTCont_gone {eid : Nat} {s : ManagerState} (t : TCont)
    (h : GoneP eid s) : GoneP eid (runTCont s t) := by
  obtain ⟨h1, h2, h3⟩ := h
  cases hg : alGet s.activeRequests t.requestId with
  | none =>
      have heq : runTCont s t = s := by
        simp only [runTCont, hg]
      rw [heq]
      exact ⟨h1, h2, h3⟩
  | some cur =>
      by_cases hcond : cur = t.eid ∧ entryCancelled s t.eid = false
      · have heq : runTCont s t =
            { s with activeRequests := alDelete s.activeRequests t.requestId,
                     trace := s.trace ++ [Event.proxyResolved t.eid t.value] } := by
          simp only [runTCont, hg]
          rw [if_pos hcond]
        rw [heq]
        refine ⟨fun p hp => h1 p (mem_alDelete.mp hp).1, h2, ?_⟩
        show resolveCount (s.trace ++ [Event.proxyResolved t.eid t.value]) eid = 0
        have hne : t.eid ≠ eid := hcond.1 ▸ h1 _ (alGet_mem hg)
        rw [resolveCount_append, h3]
        simp [resolveCount, List.countP_cons, hne]
      · have heq : runTCont s t = s := by
          simp only [runTCont, hg]
          rw [if_neg hcond]
        rw [heq]
        exact ⟨h1, h2, h3⟩

theorem fireTimeoutRun_gone {eid : Nat} {s : ManagerState} (tid : Nat)
    (h : GoneP eid s) : GoneP eid (fireTimeoutRun s tid) := by
  unfold fireTimeoutRun
  cases s.timeouts.find? (fun t => t.tid == tid) with
  | none => exact h
  | some t => exact runTCont_gone t (gone_transport rfl rfl rfl h)

theorem foldl_cancelFold_gone {eid : Nat} (ids : List String) :
    ∀ (acc : ManagerState × Nat), GoneP eid acc.1 →
      GoneP eid ((ids.foldl cancelFold acc)).1 := by
  induction ids with
  | nil => intro acc h; exact h
  | cons rid rest ih =>
      intro acc h
      rw [List.foldl_cons]
      exact ih _ (cancelRun_gone h)

theorem getAbortControllerRun_frame (s : ManagerState) :
    (getAbortControllerRun s).1.activeRequests = s.activeRequests ∧
    (getAbortControllerRun s).1.nextEid = s.nextEid ∧
    (getAbortControllerRun s).1.trace = s.trace := by
  cases hp : s.pendingCtrl with
  | none =>
      have heq : (getAbortControllerRun s).1 =
          { s with pendingCtrl := some s.nextCtrl, nextCtrl := s.nextCtrl + 1 } := by
        simp only [getAbortControllerRun, hp]
      rw [heq]
      exact ⟨rfl, rfl, rfl⟩
  | some c =>
      by_cases hc : c ∈ s.abortedCtrls
      · have heq : (getAbortControllerRun s).1 =
            { s with pendingCtrl := some s.nextCtrl, nextCtrl := s.nextCtrl + 1 } := by
          simp only [getAbortControllerRun, hp]
          rw [if_pos hc]
        rw [heq]
        exact ⟨rfl, rfl, rfl⟩
      · have heq : (getAbortControllerRun s).1 = s := by
          simp only [getAbortControllerRun, hp]
          rw [if_neg hc]
        rw [heq]
        exact ⟨rfl, rfl, rfl⟩

theorem step_gone {eid : Nat} {s : ManagerState} (c : Cmd)
    (h : GoneP eid s) : GoneP eid (step s c) := by
  cases c with
  | req url input opts now rand => exact reqCore_gone h
  | cancelC rid => exact cancelRun_gone h
  | cancelAllC => exact foldl_cancelFold_gone _ _ h
  | clearC =>
      obtain ⟨h1, h2, h3⟩ := h
      exact ⟨fun p hp => absurd hp (List.not_mem_nil p), h2, h3⟩
  | setOptionsC v =>
      cases v with
      | none => exact h
      | some b => exact gone_transport rfl rfl rfl h
  | deliverC uid oc => exact deliverRun_gone uid oc h
  | fireTimeoutC tid => exact fireTimeoutRun_gone tid h
  | getSignalC =>
      obtain ⟨ha, hn, ht⟩ := getAbortControllerRun_frame s
      exact gone_transport ha hn ht h
  | addAbortListenerC ctrl throws =>
      cases ctrl with
      | none => exact h
      | some ctl => exact gone_transport rfl rfl rfl h

theorem runFrom_gone {eid : Nat} (cmds : List Cmd) {s : ManagerState}
    (h : GoneP eid s) : GoneP eid (runFrom s cmds) :=
  foldl_pres (GoneP eid) step (fun t c ht => step_gone c ht) cmds s h

theorem reqCore_active_super (s : ManagerState) (rid : String) (input : ReqInput)
    (opts : ReqOptions) (eidA : Nat) (hnc : opts.noCancel = false)
    (hget : alGet s.activeRequests rid = some eidA) :
    (reqCore s rid input opts).1.activeRequests =
      alSet (alDelete s.activeRequests rid) rid s.nextEid := by
  have hncp : ¬ (opts.noCancel = true) := by
    rw [hnc]
    exact Bool.false_ne_true
  have hifa : (if opts.noCancel = true then s.activeRequests
      else if (alGet s.activeRequests rid).isSome then alDelete s.activeRequests rid
      else s.activeRequests) = alDelete s.activeRequests rid := by
    rw [if_neg hncp, hget]
    rfl
  rw [reqCore_active, hifa]

theorem reqCore_entries_super (s : ManagerState) (rid : String) (input : ReqInput)
    (opts : ReqOptions) (eidA : Nat) (hnc : opts.noCancel = false)
    (hget : alGet s.activeRequests rid = some eidA) :
    ∃ ctrl, (reqCore s rid input opts).1.entries =
      alSet (alUpdate (fun d => { d with isCancelled := true }) s.entries eidA)
        s.nextEid ⟨ctrl, opts.cancelToken, false, s.verbose⟩ := by
  have hncp : ¬ (opts.noCancel = true) := by
    rw [hnc]
    exact Bool.false_ne_true
  obtain ⟨ctrl, hent⟩ := reqCore_entries_ex s rid input opts
  refine ⟨ctrl, ?_⟩
  have hif : (if opts.noCancel = true then s.entries
      else match alGet s.activeRequests rid with
           | none => s.entries
           | some e0 => alUpdate (fun d => { d with isCancelled := true }) s.entries e0) =
      alUpdate (fun d => { d with isCancelled := true }) s.entries eidA := by
    rw [if_neg hncp, hget]
  rw [hent, hif]

/-- Claim C1: when a request is submitted and an entry is still tracked
under the same identity, the submit cancels that entry strictly before
the new one is registered: afterwards the old entry object is marked
cancelled and holds no table slot, the new entry is the table occupant
for the identity and is itself not cancelled, and the first wrapper never
resolves (with the first call result or anything else) no matter what
steps the scheduler takes afterwards. -/
theorem c1_supersession (s : ManagerState) (url : String) (input : ReqInput)
    (opts : ReqOptions) (now rand : String) (eidA : Nat) (dA : EntryData)
    (hnc : opts.noCancel = false)
    (hget : alGet s.activeRequests
      (generateRequestId url opts.requestKey opts.noCancel now rand) = some eidA)
    (hdA : alGet s.entries eidA = some dA)
    (hvals : (eidsOf s.activeRequests).Nodup)
    (hlt : ∀ p ∈ s.activeRequests, p.2 < s.nextEid)
    (hres : resolveCount s.trace eidA = 0) :
    (alGet (requestRun s url input opts now rand).1.entries eidA =
      some { dA with isCancelled := true }) ∧
    (∀ p ∈ (requestRun s url input opts now rand).1.activeRequests, p.2 ≠ eidA) ∧
    (alGet (requestRun s url input opts now rand).1.activeRequests
      (generateRequestId url opts.requestKey opts.noCancel now rand) =
      some (requestRun s url input opts now rand).2.eid) ∧
    ((requestRun s url input opts now rand).2.eid ≠ eidA) ∧
    (∃ d, alGet (requestRun s url input opts now rand).1.entries
        (requestRun s url input opts now rand).2.eid = some d ∧ d.isCancelled = false) ∧
    (∀ cmds, resolveCount (runFrom (requestRun s url input opts now rand).1 cmds).trace
      eidA = 0) := by
  have hR : requestRun s url input opts now rand =
      reqCore s (generateRequestId url opts.requestKey opts.noCancel now rand) input opts := rfl
  set rid := generateRequestId url opts.requestKey opts.noCancel now rand with hriddef
  have heidA_lt : eidA < s.nextEid := hlt _ (alGet_mem hget)
  have hneA : eidA ≠ s.nextEid := by omega
  obtain ⟨ctrl, hent⟩ := reqCore_entries_super s rid input opts eidA hnc hget
  have hact := reqCore_active_super s rid input opts eidA hnc hget
  have hmemA : ∀ p ∈ (reqCore s rid input opts).1.activeRequests, p.2 ≠ eidA := by
    intro p hp
    rw [hact] at hp
    rcases mem_alSet hp with hp | rfl
    · obtain ⟨hpm, hpk⟩ := mem_alDelete.mp hp
      intro hpe
      have hpair : p = (rid, eidA) :=
        List.inj_on_of_nodup_map hvals hpm (alGet_mem hget) (by simpa using hpe)
      exact hpk (by rw [hpair])
    · show s.nextEid ≠ eidA
      omega
  refine ⟨?_, hmemA, ?_, ?_, ?_, ?_⟩
  · rw [hR, hent, alGet_alSet_ne _ _ _ hneA, alGet_alUpdate_self, hdA]
    rfl
  · rw [hR, hact, reqCore_eid, alGet_alSet_self]
  · rw [hR, reqCore_eid]
    omega
  · rw [hR, reqCore_eid, hent, alGet_alSet_self]
    exact ⟨_, rfl, rfl⟩
  · intro cmds
    have hg : GoneP eidA (reqCore s rid input opts).1 := by
      refine ⟨hmemA, ?_, ?_⟩
      · rw [reqCore_nextEid]
        omega
      · rw [reqCore_resolveCount]
        exact hres
    rw [hR]
    exact (runFrom_gone cmds hg).2.2

theorem c1_supersession_witness :
    (alGet (requestRun ((requestRun (initState false) ("u") (ReqInput.thenable 0) ⟨none, none, none, false⟩ ("t") ("r")).1) ("u") (ReqInput.thenable 1) ⟨none, none, none, false⟩ ("t") ("r")).1.entries 0 = some ⟨0, none, true, false⟩) ∧
    (alGet (requestRun ((requestRun (initState false) ("u") (ReqInput.thenable 0) ⟨none, none, none, false⟩ ("t") ("r")).1) ("u") (ReqInput.thenable 1) ⟨none, none, none, false⟩ ("t") ("r")).1.activeRequests ("request_u") = some (requestRun ((requestRun (initState false) ("u") (ReqInput.thenable 0) ⟨none, none, none, false⟩ ("t") ("r")).1) ("u") (ReqInput.thenable 1) ⟨none, none, none, false⟩ ("t") ("r")).2.eid) ∧
    ((requestRun ((requestRun (initState false) ("u") (ReqInput.thenable 0) ⟨none, none, none, false⟩ ("t") ("r")).1) ("u") (ReqInput.thenable 1) ⟨none, none, none, false⟩ ("t") ("r")).2.eid ≠ 0) ∧
    (resolveCount (runFrom (requestRun ((requestRun (initState false) ("u") (ReqInput.thenable 0) ⟨none, none, none, false⟩ ("t") ("r")).1) ("u") (ReqInput.thenable 1) ⟨none, none, none, false⟩ ("t") ("r")).1
      [Cmd.deliverC 0 (Outcome.fulfilled 9)]).trace 0 = 0) :=
  ⟨(c1_supersession ((requestRun (initState false) ("u") (ReqInput.thenable 0)
      ⟨none, none, none, false⟩ ("t") ("r")).1) ("u") (ReqInput.thenable 1)
      ⟨none, none, none, false⟩ ("t") ("r") 0 ⟨0, none, false, false⟩
      rfl (by decide) (by decide) (by decide) (by decide) (by decide)).1,
   (c1_supersession ((requestRun (initState false) ("u") (ReqInput.thenable 0)
      ⟨none, none, none, false⟩ ("t") ("r")).1) ("u") (ReqInput.thenable 1)
      ⟨none, none, none, false⟩ ("t") ("r") 0 ⟨0, none, false, false⟩
      rfl (by decide) (by decide) (by decide) (by decide) (by decide)).2.2.1,
   (c1_supersession ((requestRun (initState false) ("u") (ReqInput.thenable 0)
      ⟨none, none, none, false⟩ ("t") ("r")).1) ("u") (ReqInput.thenable 1)
      ⟨none, none, none, false⟩ ("t") ("r") 0 ⟨0, none, false, false⟩
      rfl (by decide) (by decide) (by decide) (by decide) (by decide)).2.2.2.1,
   (c1_supersession ((requestRun (initState false) ("u") (ReqInput.thenable 0)
      ⟨none, none, none, false⟩ ("t") ("r")).1) ("u") (ReqInput.thenable 1)
      ⟨none, none, none, false⟩ ("t") ("r") 0 ⟨0, none, false, false⟩
      rfl (by decide) (by decide) (by decide) (by decide) (by decide)).2.2.2.2.2
      [Cmd.deliverC 0 (Outcome.fulfilled 9)]⟩

theorem mem_alSet_key {κ α : Type} [DecidableEq κ] {m : List (κ × α)} {k : κ} {v : α}
    {p : κ × α} (hk : (m.map Prod.fst).Nodup) (hp : p ∈ alSet m k v) (hpk : p.1 = k) :
    p = (k, v) := by
  induction m with
  | nil =>
      rw [alSet] at hp
      rcases List.mem_singleton.mp hp with rfl
      rfl
  | cons q rest ih =>
      rw [List.map_cons, List.nodup_cons] at hk
      by_cases hq : q.1 = k
      · rw [alSet, if_pos hq] at hp
        rcases List.mem_cons.mp hp with rfl | hp
        · rfl
        · exact absurd (hpk ▸ List.mem_map_of_mem Prod.fst hp) (hq ▸ hk.1)
      · rw [alSet, if_neg hq] at hp
        rcases List.mem_cons.mp hp with rfl | hp
        · exact absurd hpk hq
        · exact ih hk.2 hp

theorem inv_transport {s t : ManagerState} (h : Inv s)
    (ha : t.activeRequests = s.activeRequests) (hn : t.nextEid = s.nextEid)
    (ht : t.trace = s.trace) : Inv t := by
  obtain ⟨k, e, l, tl, m, u⟩ := h
  refine ⟨?_, ?_, ?_, ?_, ?_, ?_⟩
  · rw [keysOf, ha]
    exact k
  · rw [eidsOf, ha]
    exact e
  · rw [ha, hn]
    exact l
  · rw [ht, hn]
    exact tl
  · intro eid
    rw [ht]
    exact m eid
  · rw [ha, ht]
    exact u

theorem settleCount_tail_le {tail : List Event} {e0 : Nat}
    (htail : ∀ e ∈ tail, settleTarget e = some e0) (hlen : tail.length ≤ 1) :
    (settleCount tail e0 ≤ 1) ∧ (∀ eid, eid ≠ e0 → settleCount tail eid = 0) := by
  cases tail with
  | nil => exact ⟨by simp [settleCount], fun eid _ => by simp [settleCount]⟩
  | cons ev rest =>
      cases rest with
      | nil =>
          have hev := htail ev (List.mem_cons_self _ _)
          constructor
          · rw [settleCount_single_eq e0 ev hev]
          · intro eid hne
            exact settleCount_single_ne eid ev hev (fun he => hne he.symm)
      | cons ev2 rest2 => simp at hlen

theorem inv_settle_general {s t : ManagerState} {rid : String} {e0 : Nat}
    (h : Inv s) (hg : alGet s.activeRequests rid = some e0)
    {evs tail : List Event} (hnone : ∀ e ∈ evs, settleTarget e = none)
    (htail : ∀ e ∈ tail, settleTarget e = some e0) (hlen : tail.length ≤ 1)
    (ha : t.activeRequests = alDelete s.activeRequests rid)
    (hn : t.nextEid = s.nextEid)
    (ht : t.trace = s.trace ++ evs ++ tail) : Inv t := by
  obtain ⟨hk, he, hl, htl, hm, hu⟩ := h
  have hmem0 : (rid, e0) ∈ s.activeRequests := alGet_mem hg
  have hcnt0 : settleCount s.trace e0 = 0 := hu _ hmem0
  obtain ⟨htle, htlz⟩ := settleCount_tail_le htail hlen
  have he0lt : e0 < s.nextEid := hl _ hmem0
  refine ⟨?_, ?_, ?_, ?_, ?_, ?_⟩
  · rw [keysOf, ha]
    exact ((alDelete_sublist _ _).map Prod.fst).nodup hk
  · rw [eidsOf, ha]
    exact ((alDelete_sublist _ _).map Prod.snd).nodup he
  · intro p hp
    rw [ha] at hp
    rw [hn]
    exact hl p (mem_alDelete.mp hp).1
  · intro e hee target htt
    rw [ht] at hee
    rw [hn]
    rcases List.mem_append.mp hee with hee | hee
    · rcases List.mem_append.mp hee with hee | hee
      · exact htl e hee target htt
      · rw [hnone e hee] at htt
        exact absurd htt (Option.noConfusion)
    · have := htail e hee
      rw [this] at htt
      injection htt with htt2
      omega
  · intro eid
    rw [ht, settleCount_append, settleCount_append, settleCount_of_none hnone]
    by_cases heid : eid = e0
    · subst heid
      rw [hcnt0]
      omega
    · rw [htlz eid heid]
      have := hm eid
      omega
  · intro p hp
    rw [ha] at hp
    obtain ⟨hpm, hpk⟩ := mem_alDelete.mp hp
    have hpne : p.2 ≠ e0 := by
      intro hpe
      have hpair : p = (rid, e0) :=
        List.inj_on_of_nodup_map he hpm hmem0 (by simpa using hpe)
      exact hpk (by rw [hpair])
    rw [ht, settleCount_append, settleCount_append, settleCount_of_none hnone,
      htlz p.2 hpne, hu p hpm]

theorem inv_req_general {s t : ManagerState} {rid : String}
    {X : List (String × Nat)} {evs : List Event}
    (h : Inv s)
    (hXsub : ∀ p ∈ X, p ∈ s.activeRequests)
    (hXkeys : (X.map Prod.fst).Nodup)
    (hXvals : (X.map Prod.snd).Nodup)
    (hdis : (∀ e ∈ evs, settleTarget e = none) ∨
       (∃ e0 evs1, alGet s.activeRequests rid = some e0 ∧
          evs = evs1 ++ [Event.proxyRejectedCancelled e0] ∧
          (∀ e ∈ evs1, settleTarget e = none)))
    (ha : t.activeRequests = alSet X rid s.nextEid)
    (hn : t.nextEid = s.nextEid + 1)
    (ht : t.trace = s.trace ++ evs) : Inv t := by
  obtain ⟨hk, he, hl, htl, hm, hu⟩ := h
  have hXlt : ∀ p ∈ X, p.2 < s.nextEid := fun p hp => hl p (hXsub p hp)
  refine ⟨?_, ?_, ?_, ?_, ?_, ?_⟩
  · rw [keysOf, ha]
    exact keys_alSet_nodup hXkeys rid s.nextEid
  · rw [eidsOf, ha]
    exact snds_alSet_nodup hXvals (fun p hp => Nat.ne_of_lt (hXlt p hp))
  · intro p hp
    rw [ha] at hp
    rw [hn]
    rcases mem_alSet hp with hp | rfl
    · have := hXlt p hp
      omega
    · show s.nextEid < s.nextEid + 1
      omega
  · intro e hee target htt
    rw [ht] at hee
    rw [hn]
    rcases List.mem_append.mp hee with hee | hee
    · have := htl e hee target htt
      omega
    · rcases hdis with hnone | ⟨e0, evs1, hg0, rfl, hnone1⟩
      · rw [hnone e hee] at htt
        exact absurd htt (Option.noConfusion)
      · rcases List.mem_append.mp hee with hee | hee
        · rw [hnone1 e hee] at htt
          exact absurd htt (Option.noConfusion)
        · rcases List.mem_singleton.mp hee with rfl
          injection htt with htt2
          have := hl _ (alGet_mem hg0)
          omega
  · intro eid
    rw [ht, settleCount_append]
    rcases hdis with hnone | ⟨e0, evs1, hg0, rfl, hnone1⟩
    · rw [settleCount_of_none hnone]
      have := hm eid
      omega
    · rw [settleCount_append, settleCount_of_none hnone1]
      by_cases heid : eid = e0
      · subst heid
        rw [hu _ (alGet_mem hg0),
          settleCount_single_eq eid (Event.proxyRejectedCancelled eid) rfl]
      · rw [settleCount_single_ne eid (Event.proxyRejectedCancelled e0) rfl
          (fun hh => heid hh.symm)]
        have := hm eid
        omega
  · intro p hp
    rw [ha] at hp
    rw [ht, settleCount_append]
    have hbase : settleCount s.trace p.2 = 0 := by
      rcases mem_alSet hp with hpX | rfl
      · exact hu p (hXsub p hpX)
      · exact settleCount_eq_zero_of_lt htl
    rcases hdis with hnone | ⟨e0, evs1, hg0, rfl, hnone1⟩
    · rw [settleCount_of_none hnone, hbase]
    · have hpne : p.2 ≠ e0 := by
        intro hpe
        have he0lt : e0 < s.nextEid := hl _ (alGet_mem hg0)
        rcases mem_alSet hp with hpX | rfl
        · have hpair : p = (rid, e0) :=
            List.inj_on_of_nodup_map he (hXsub p hpX) (alGet_mem hg0) (by simpa using hpe)
          have hkey : p = (rid, s.nextEid) := mem_alSet_key hXkeys hp (by rw [hpair])
          rw [hpair] at hkey
          have : e0 = s.nextEid := congrArg Prod.snd hkey
          omega
        · have : s.nextEid = e0 := by simpa using hpe
          omega
      rw [settleCount_append, settleCount_of_none hnone1, hbase,
        settleCount_single_ne p.2 (Event.proxyRejectedCancelled e0) rfl
          (fun hh => hpne hh.symm)]

theorem inv_settle_one {s : ManagerState} {rid : String} {e0 : Nat} {ev : Event}
    (h : Inv s) (hg : alGet s.activeRequests rid = some e0)
    (hev : settleTarget ev = some e0) :
    Inv { s with activeRequests := alDelete s.activeRequests rid,
                 trace := s.trace ++ [ev] } := by
  have hnone : ∀ e ∈ ([] : List Event), settleTarget e = none := by simp
  have htail : ∀ e ∈ [ev], settleTarget e = some e0 := by
    intro e he
    rcases List.mem_singleton.mp he with rfl
    exact hev
  have ht : ({ s with activeRequests := alDelete s.activeRequests rid,
                      trace := s.trace ++ [ev] } : ManagerState).trace =
      s.trace ++ [] ++ [ev] := by
    simp
  exact inv_settle_general h hg hnone htail (by simp) rfl rfl ht

theorem inv_settle_del {s : ManagerState} {rid : String} {e0 : Nat}
    (h : Inv s) (hg : alGet s.activeRequests rid = some e0) :
    Inv { s with activeRequests := alDelete s.activeRequests rid } := by
  have hnone : ∀ e ∈ ([] : List Event), settleTarget e = none := by simp
  have htail : ∀ e ∈ ([] : List Event), settleTarget e = some e0 := by simp
  have ht : ({ s with activeRequests := alDelete s.activeRequests rid } :
      ManagerState).trace = s.trace ++ ([] : List Event) ++ [] := by
    simp
  exact inv_settle_general h hg hnone htail (by simp) rfl rfl ht

theorem inv_settle_evs {s t : ManagerState} {rid : String} {e0 : Nat} {evs : List Event}
    (h : Inv s) (hg : alGet s.activeRequests rid = some e0)
    (hnone : ∀ e ∈ evs, settleTarget e = none)
    (ha : t.activeRequests = alDelete s.activeRequests rid)
    (hn : t.nextEid = s.nextEid)
    (ht : t.trace = s.trace ++ evs ++ [Event.proxyRejectedCancelled e0]) : Inv t := by
  have htail : ∀ e ∈ [Event.proxyRejectedCancelled e0], settleTarget e = some e0 := by
    intro e he
    rcases List.mem_singleton.mp he with rfl
    rfl
  exact inv_settle_general h hg hnone htail (by simp) ha hn ht

theorem inv_settle_evs_none {s t : ManagerState} {rid : String} {e0 : Nat}
    {evs : List Event}
    (h : Inv s) (hg : alGet s.activeRequests rid = some e0)
    (hnone : ∀ e ∈ evs, settleTarget e = none)
    (ha : t.activeRequests = alDelete s.activeRequests rid)
    (hn : t.nextEid = s.nextEid)
    (ht : t.trace = s.trace ++ evs) : Inv t := by
  have htail : ∀ e ∈ ([] : List Event), settleTarget e = some e0 := by simp
  refine inv_settle_general h hg hnone htail (by simp) ha hn ?_
  rw [List.append_nil]
  exact ht

theorem cancelRun_inv {s : ManagerState} (rid : String) (h : Inv s) :
    Inv (cancelRun s rid).1 := by
  cases hg : alGet s.activeRequests rid with
  | none =>
      rw [cancelRun_none hg]
      exact h
  | some e0 =>
      rw [cancelRun_some hg]
      obtain ⟨evs, htr, hnone⟩ := (cancelCore_shape s rid e0).traceExt
      by_cases hv : s.verbose = true
      · rw [if_pos hv] at htr
        exact inv_settle_evs h hg hnone (cancelCore_shape s rid e0).activeEq
          (cancelCore_shape s rid e0).nextEidEq htr
      · rw [if_neg hv, List.append_nil] at htr
        exact inv_settle_evs_none h hg hnone (cancelCore_shape s rid e0).activeEq
          (cancelCore_shape s rid e0).nextEidEq htr

theorem reqCore_inv {s : ManagerState} (rid : String) (input : ReqInput)
    (opts : ReqOptions) (h : Inv s) : Inv (reqCore s rid input opts).1 := by
  obtain ⟨evs, htr, hdis⟩ := reqCore_traceExt s rid input opts
  have hXsub : ∀ p ∈ (if opts.noCancel = true then s.activeRequests
      else if (alGet s.activeRequests rid).isSome then alDelete s.activeRequests rid
      else s.activeRequests), p ∈ s.activeRequests := by
    intro p hp
    split at hp
    · exact hp
    · split at hp
      · exact (mem_alDelete.mp hp).1
      · exact hp
  have hXkeys : ((if opts.noCancel = true then s.activeRequests
      else if (alGet s.activeRequests rid).isSome then alDelete s.activeRequests rid
      else s.activeRequests).map Prod.fst).Nodup := by
    split
    · exact h.keysNodup
    · split
      · exact ((alDelete_sublist _ _).map Prod.fst).nodup h.keysNodup
      · exact h.keysNodup
  have hXvals : ((if opts.noCancel = true then s.activeRequests
      else if (alGet s.activeRequests rid).isSome then alDelete s.activeRequests rid
      else s.activeRequests).map Prod.snd).Nodup := by
    split
    · exact h.eidsNodup
    · split
      · exact ((alDelete_sublist _ _).map Prod.snd).nodup h.eidsNodup
      · exact h.eidsNodup
  exact inv_req_general h hXsub hXkeys hXvals hdis (reqCore_active s rid input opts)
    (reqCore_nextEid s rid input opts) htr

theorem runPCont_inv (oc : Outcome) {s : ManagerState} (c : PCont) (h : Inv s) :
    Inv (runPCont oc s c) := by
  cases oc with
  | fulfilled v =>
      cases hg : alGet s.activeRequests c.requestId with
      | none =>
          have heq : runPCont (Outcome.fulfilled v) s c = s := by
            simp only [runPCont, hg]
          rw [heq]
          exact h
      | some cur =>
          by_cases hc : cur = c.eid ∧ entryCancelled s c.eid = false
          · have heq : runPCont (Outcome.fulfilled v) s c =
                { s with activeRequests := alDelete s.activeRequests c.requestId,
                         trace := s.trace ++ [Event.proxyResolved c.eid v] } := by
              simp only [runPCont, hg]
              rw [if_pos hc]
            rw [heq]
            obtain ⟨hc1, hc2⟩ := hc
            subst hc1
            exact inv_settle_one h hg rfl
          · have heq : runPCont (Outcome.fulfilled v) s c = s := by
              simp only [runPCont, hg]
              rw [if_neg hc]
            rw [heq]
            exact h
  | rejected e =>
      cases hg : alGet s.activeRequests c.requestId with
      | none =>
          have heq : runPCont (Outcome.rejected e) s c = s := by
            simp only [runPCont, hg]
          rw [heq]
          exact h
      | some cur =>
          by_cases hc1 : cur = c.eid
          · by_cases hc2 : entryCancelled s c.eid = false
            · have heq : runPCont (Outcome.rejected e) s c =
                  { s with activeRequests := alDelete s.activeRequests c.requestId,
                           trace := s.trace ++ [Event.proxyRejectedTransport c.eid e] } := by
                simp only [runPCont, hg]
                rw [if_pos hc1, if_pos hc2]
              rw [heq]
              exact inv_settle_one h (by rw [hg, hc1]) rfl
            · by_cases hc3 : entryVerbose s c.eid = true
              · have heq : runPCont (Outcome.rejected e) s c =
                    { s with activeRequests := alDelete s.activeRequests c.requestId,
                             trace := s.trace ++ [Event.proxyRejectedCancelled c.eid] } := by
                  simp only [runPCont, hg]
                  rw [if_pos hc1, if_neg hc2, if_pos hc3]
                rw [heq]
                exact inv_settle_one h (by rw [hg, hc1]) rfl
              · have heq : runPCont (Outcome.rejected e) s c =
                    { s with activeRequests := alDelete s.activeRequests c.requestId } := by
                  simp only [runPCont, hg]
                  rw [if_pos hc1, if_neg hc2, if_neg hc3]
                rw [heq]
                exact inv_settle_del h (by rw [hg, hc1])
          · have heq : runPCont (Outcome.rejected e) s c = s := by
              simp only [runPCont, hg]
              rw [if_neg hc1]
            rw [heq]
            exact h

theorem runTCont_inv {s : ManagerState} (t : TCont) (h : Inv s) :
    Inv (runTCont s t) := by
  cases hg : alGet s.activeRequests t.requestId with
  | none =>
      have heq : runTCont s t = s := by
        simp only [runTCont, hg]
      rw [heq]
      exact h
  | some cur =>
      by_cases hc : cur = t.eid ∧ entryCancelled s t.eid = false
      · have heq : runTCont s t =
            { s with activeRequests := alDelete s.activeRequests t.requestId,
                     trace := s.trace ++ [Event.proxyResolved t.eid t.value] } := by
          simp only [runTCont, hg]
          rw [if_pos hc]
        rw [heq]
        obtain ⟨hc1, hc2⟩ := hc
        subst hc1
        exact inv_settle_one h hg rfl
      · have heq : runTCont s t = s := by
          simp only [runTCont, hg]
          rw [if_neg hc]
        rw [heq]
        exact h

theorem deliverRun_inv {s : ManagerState} (uid : Nat) (oc : Outcome) (h : Inv s) :
    Inv (deliverRun s uid oc) := by
  unfold deliverRun
  exact foldl_pres Inv (runPCont oc) (fun t c ht => runPCont_inv oc c ht) _ _
    (inv_transport h rfl rfl rfl)

theorem fireTimeoutRun_inv {s : ManagerState} (tid : Nat) (h : Inv s) :
    Inv (fireTimeoutRun s tid) := by
  unfold fireTimeoutRun
  cases s.timeouts.find? (fun t => t.tid == tid) with
  | none => exact h
  | some t => exact runTCont_inv t (inv_transport h rfl rfl rfl)

theorem foldl_cancelFold_inv (ids : List String) :
    ∀ (acc : ManagerState × Nat), Inv acc.1 → Inv (ids.foldl cancelFold acc).1 := by
  induction ids with
  | nil =>
      intro acc h
      exact h
  | cons a as ih =>
      intro acc h
      exact ih _ (cancelRun_inv a h)

theorem clearRun_inv {s : ManagerState} (h : Inv s) : Inv (clearRun s) := by
  obtain ⟨hk, he, hl, htl, hm, hu⟩ := h
  refine ⟨?_, ?_, ?_, ?_, ?_, ?_⟩
  · simp [clearRun, keysOf]
  · simp [clearRun, eidsOf]
  · intro p hp
    exact absurd hp (List.not_mem_nil p)
  · exact htl
  · exact hm
  · intro p hp
    exact absurd hp (List.not_mem_nil p)

theorem setOptionsRun_inv {s : ManagerState} (v : Option Bool) (h : Inv s) :
    Inv (setOptionsRun s v) := by
  cases v with
  | none => exact h
  | some b => exact inv_transport h rfl rfl rfl

theorem getAbortControllerRun_inv {s : ManagerState} (h : Inv s) :
    Inv (getAbortControllerRun s).1 := by
  obtain ⟨ha, hn, ht⟩ := getAbortControllerRun_frame s
  exact inv_transport h ha hn ht

theorem addAbortListenerRun_inv {s : ManagerState} (ctrl : Option Nat) (throws : Bool)
    (h : Inv s) : Inv (addAbortListenerRun s ctrl throws) := by
  cases ctrl with
  | none => exact h
  | some c => exact inv_transport h rfl rfl rfl

theorem step_inv {s : ManagerState} (c : Cmd) (h : Inv s) : Inv (step s c) := by
  cases c with
  | req url input opts now rand => exact reqCore_inv _ input opts h
  | cancelC rid => exact cancelRun_inv rid h
  | cancelAllC => exact foldl_cancelFold_inv _ _ h
  | clearC => exact clearRun_inv h
  | setOptionsC v => exact setOptionsRun_inv v h
  | deliverC uid oc => exact deliverRun_inv uid oc h
  | fireTimeoutC tid => exact fireTimeoutRun_inv tid h
  | getSignalC => exact getAbortControllerRun_inv h
  | addAbortListenerC ctrl throws => exact addAbortListenerRun_inv ctrl throws h

theorem initState_inv (v : Bool) : Inv (initState v) := by
  refine ⟨?_, ?_, ?_, ?_, ?_, ?_⟩
  · simp [initState, keysOf]
  · simp [initState, eidsOf]
  · intro p hp
    exact absurd hp (List.not_mem_nil p)
  · intro e he
    exact absurd he (List.not_mem_nil e)
  · intro eid
    simp [initState, settleCount]
  · intro p hp
    exact absurd hp (List.not_mem_nil p)

theorem runFrom_inv (cmds : List Cmd) {s : ManagerState} (h : Inv s) :
    Inv (runFrom s cmds) :=
  foldl_pres Inv step (fun t c ht => step_inv c ht) cmds s h

theorem runCmds_inv (v : Bool) (cmds : List Cmd) : Inv (runCmds v cmds) :=
  runFrom_inv cmds (initState_inv v)

theorem runPCont_stale (oc : Outcome) (s : ManagerState) (c : PCont)
    (h : alGet s.activeRequests c.requestId ≠ some c.eid) :
    runPCont oc s c = s := by
  cases oc with
  | fulfilled v =>
      cases hg : alGet s.activeRequests c.requestId with
      | none => simp only [runPCont, hg]
      | some cur =>
          have hne : ¬ (cur = c.eid ∧ entryCancelled s c.eid = false) := by
            intro hc
            exact h (by rw [hg, hc.1])
          simp only [runPCont, hg]
          rw [if_neg hne]
  | rejected e =>
      cases hg : alGet s.activeRequests c.requestId with
      | none => simp only [runPCont, hg]
      | some cur =>
          have hne : ¬ (cur = c.eid) := fun hc => h (by rw [hg, hc])
          simp only [runPCont, hg]
          rw [if_neg hne]

/-- Claim C3: over every command sequence run from a fresh manager, each
entry's proxy is settled (resolved or rejected) at most once in the whole
trace; and a settlement continuation whose entry is no longer the table's
current occupant for its identity is a complete no-op: it neither settles
that stale entry's proxy nor removes or settles the superseding occupant,
leaving the state exactly as it was. -/
theorem c3_settle_once_current :
    (∀ (verbose : Bool) (cmds : List Cmd) (eid : Nat),
       settleCount (runCmds verbose cmds).trace eid ≤ 1) ∧
    (∀ (oc : Outcome) (s : ManagerState) (c : PCont),
       alGet s.activeRequests c.requestId ≠ some c.eid → runPCont oc s c = s) :=
  ⟨fun v cmds eid => (runCmds_inv v cmds).atMostOnce eid, runPCont_stale⟩

theorem c3_settle_once_current_witness :
    settleCount (runCmds false [Cmd.req ("u") (ReqInput.thenable 0)
        ⟨none, none, none, false⟩ ("t") ("r"),
      Cmd.deliverC 0 (Outcome.fulfilled 5)]).trace 0 ≤ 1 ∧
    runPCont (Outcome.fulfilled 5) (initState false) ⟨0, ("u"), 0⟩ =
      initState false :=
  ⟨c3_settle_once_current.1 false [Cmd.req ("u") (ReqInput.thenable 0)
      ⟨none, none, none, false⟩ ("t") ("r"),
    Cmd.deliverC 0 (Outcome.fulfilled 5)] 0,
   c3_settle_once_current.2 (Outcome.fulfilled 5) (initState false) ⟨0, ("u"), 0⟩
     (by decide)⟩

end RequestManagerModel
